import Mathlib

/-!
Shallow embedding of the CSV-cleaning program in `src/clean.py`.

Strings are modelled as Lean `String` (lists of characters); Python floats are
modelled by `Flt` (NaN, signed infinity, or an exact rational for finite
values; binary rounding of decimal literals is not modelled).  Python
`float(...)` string parsing is modelled by `parseFloat` (optional sign,
decimal mantissa, optional exponent, and the `inf`/`infinity`/`nan` words,
case-insensitively; digit-group underscores and non-ASCII digits are not
modelled).  `pandas.to_datetime` on a single string is an oracle parameter
`String → Option PDate` throughout, since its accepted formats are
locale-flexible and not specified by the repository.
-/

namespace CleanPy

/-- Whitespace test used by Python `str.strip` (ASCII subset, as in `Char.isWhitespace`). -/
def isWsChar (c : Char) : Bool := c.isWhitespace

/-- Remove leading and trailing whitespace from a character list (Python `str.strip`). -/
def stripChars (l : List Char) : List Char :=
  ((l.dropWhile isWsChar).reverse.dropWhile isWsChar).reverse

/-- Python `str.strip` on `String`. -/
def pyStrip (s : String) : String := String.mk (stripChars s.data)

/-- Replace every occurrence of the single character `c` by the word `w`
(Python `str.replace` with a one-character pattern, which is the only form
`clean.py` uses). -/
def replCh (c : Char) (w : List Char) (l : List Char) : List Char :=
  (l.map (fun a => if a = c then w else [a])).flatten

/-- Python `str.replace(c, w)` on `String`, one-character pattern. -/
def pyReplace (s : String) (c : Char) (w : String) : String :=
  String.mk (replCh c w.data s.data)

/-- The `cleaned` string `clean_currency_and_numbers` computes from the
stripped text of a cell: `$` and `,` removed, whitespace stripped
(clean.py line 108). -/
def curCleaned (s : String) : String :=
  pyStrip (pyReplace (pyReplace (pyStrip s) '$' "") ',' "")

/-- The `cleaned` string `clean_percentage` computes from the stripped text
of a cell: `%` and `,` removed, whitespace stripped (clean.py line 130). -/
def pctCleaned (s : String) : String :=
  pyStrip (pyReplace (pyReplace (pyStrip s) '%' "") ',' "")

/-- Python `str.rstrip(c)`: drop the trailing run of the character `c`. -/
def rstripCh (c : Char) (l : List Char) : List Char :=
  (l.reverse.dropWhile (fun a => a = c)).reverse

/-- Substring test (Python `in` on strings). -/
def containsSub : List Char → List Char → Bool
  | [], pat => pat.isEmpty
  | h :: t, pat => pat.isPrefixOf (h :: t) || containsSub t pat

/-- Python `pat in s` for strings. -/
def containsStr (s pat : String) : Bool := containsSub s.data pat.data

/-- Python `str.lower` (ASCII). -/
def lowerStr (s : String) : String := String.mk (s.data.map Char.toLower)

/-- Python `str.endswith`. -/
def endsWithStr (s pat : String) : Bool := pat.data.isSuffixOf s.data

/-- Numeric value of a list of decimal digit characters (most significant first). -/
def digitsVal (l : List Char) : ℕ := l.foldl (fun n c => 10 * n + (c.toNat - 48)) 0

/-- Decimal digit characters of a natural number, via explicit fuel. -/
def natDigitsAux : ℕ → ℕ → List Char
  | 0, _ => []
  | fuel + 1, n =>
    if n < 10 then [Nat.digitChar n]
    else natDigitsAux fuel (n / 10) ++ [Nat.digitChar (n % 10)]

/-- Decimal digit characters of a natural number (no leading zeros, `0 ↦ "0"`). -/
def natDigits (n : ℕ) : List Char := natDigitsAux (n + 1) n

/-- Left-pad a digit list with zeros to width `w` (as in `strftime` fields). -/
def padLeft (w : ℕ) (l : List Char) : List Char := List.replicate (w - l.length) '0' ++ l

/-- A `strftime` two-digit field. -/
def pad2 (n : ℕ) : List Char := padLeft 2 (natDigits n)

/-- A `strftime` four-digit year field. -/
def pad4 (n : ℕ) : List Char := padLeft 4 (natDigits n)

/-- A `strftime` six-digit microsecond field. -/
def pad6 (n : ℕ) : List Char := padLeft 6 (natDigits n)

/-- Model of a Python float: NaN, a signed infinity, or an exact rational. -/
inductive Flt where
  | nan : Flt
  | inf : Bool → Flt
  | fin : ℚ → Flt
deriving DecidableEq

/-- Test for NaN. -/
def Flt.isNan : Flt → Bool
  | .nan => true
  | _ => false

/-- The Python comparison `-1 < x < 1` (false for NaN and both infinities). -/
def Flt.strictSmall : Flt → Bool
  | .fin q => decide (-1 < q ∧ q < 1)
  | _ => false

/-- Python `x / 100` for a float. -/
def Flt.div100 : Flt → Flt
  | .nan => .nan
  | .inf b => .inf b
  | .fin q => .fin (q / 100)

/-- Exponent part of a float literal: optional sign then a nonempty digit run. -/
def pfExp (l : List Char) : Option ℤ :=
  match l with
  | [] => none
  | c :: t =>
    if c = '+' then
      if t ≠ [] ∧ t.all Char.isDigit then some (digitsVal t) else none
    else if c = '-' then
      if t ≠ [] ∧ t.all Char.isDigit then some (-(digitsVal t : ℤ)) else none
    else
      if l.all Char.isDigit then some (digitsVal l) else none

/-- Mantissa value from integer-part and fraction-part digit lists. -/
def mantVal (ip fp : List Char) : ℚ :=
  (digitsVal ip : ℚ) + (digitsVal fp : ℚ) / (10 : ℚ) ^ fp.length

/-- Finish parsing a float literal after the mantissa: the rest must be empty
or a well-formed exponent. -/
def pfTail (r : List Char) (m : ℚ) (neg : Bool) : Option Flt :=
  match r with
  | [] => some (.fin (if neg then -m else m))
  | e :: t =>
    if e = 'e' ∨ e = 'E' then
      match pfExp t with
      | some k => some (.fin ((if neg then -m else m) * (10 : ℚ) ^ k))
      | none => none
    else none

/-- Decimal part of Python float parsing: `digits [. digits] [exponent]` with
at least one mantissa digit. -/
def pfDec (t : List Char) (neg : Bool) : Option Flt :=
  let ip := t.takeWhile Char.isDigit
  let r1 := t.dropWhile Char.isDigit
  match r1 with
  | c :: t2 =>
    if c = '.' then
      let fp := t2.takeWhile Char.isDigit
      if ip = [] ∧ fp = [] then none
      else pfTail (t2.dropWhile Char.isDigit) (mantVal ip fp) neg
    else if ip = [] then none else pfTail r1 (mantVal ip []) neg
  | [] => if ip = [] then none else pfTail [] (mantVal ip []) neg

/-- Body of Python float parsing after the optional sign: the words
`inf`, `infinity`, `nan` (case-insensitive) or a decimal literal. -/
def pfBody (t : List Char) (neg : Bool) : Option Flt :=
  if t.map Char.toLower = "inf".data ∨ t.map Char.toLower = "infinity".data then
    some (.inf neg)
  else if t.map Char.toLower = "nan".data then some .nan
  else pfDec t neg

/-- Python float parsing on a whitespace-trimmed character list: optional
sign, then `pfBody`. -/
def pfCore (l : List Char) : Option Flt :=
  match l with
  | [] => none
  | c :: t =>
    if c = '+' then pfBody t false
    else if c = '-' then pfBody t true
    else pfBody l false

/-- Model of Python `float(s)`: trims surrounding whitespace, then parses a
sign, a decimal mantissa with optional exponent, or an `inf`/`nan` word. -/
def parseFloat (s : String) : Option Flt := pfCore (stripChars s.data)

/-- Fraction digits of a rational `0 ≤ r < 1`, by repeated multiplication by
ten, with fuel (mirrors the finite decimal expansion Python prints for the
floats this program produces). -/
def fracDigitsAux : ℕ → ℚ → List Char
  | 0, _ => []
  | fuel + 1, r =>
    if r = 0 then []
    else
      let d := (⌊r * 10⌋ : ℤ).toNat % 10
      Nat.digitChar d :: fracDigitsAux fuel (r * 10 - (⌊r * 10⌋ : ℤ))

/-- Model of Python `str(x)` for a float `x` (e.g. `str(1200.5) = "1200.5"`,
`str(5.0) = "5.0"`, `str(float("nan")) = "nan"`). -/
def reprFlt : Flt → String
  | .nan => "nan"
  | .inf false => "inf"
  | .inf true => "-inf"
  | .fin q =>
    let sgn : List Char := if q < 0 then ['-'] else []
    let aq := |q|
    let ipart := natDigits (⌊aq⌋ : ℤ).toNat
    let fpart := fracDigitsAux 17 (aq - (⌊aq⌋ : ℤ))
    String.mk (sgn ++ ipart ++ '.' :: (if fpart.isEmpty then ['0'] else fpart))

/-- A cell of a dataframe: either a string or a Python float.  The missing
marker pandas uses (`np.nan`) is the float NaN, i.e. `Value.num Flt.nan`. -/
inductive Value where
  | str : String → Value
  | num : Flt → Value
deriving DecidableEq

/-- Model of `pd.isna` on a cell: true exactly for the float NaN. -/
def Value.isna : Value → Bool
  | .num .nan => true
  | _ => false

/-- Model of Python `str(value)` on a cell. -/
def strOfValue : Value → String
  | .str s => s
  | .num f => reprFlt f

/-- A parsed datetime as produced by `pd.to_datetime` (a `Timestamp`). -/
structure PDate where
  year : ℕ
  month : ℕ
  day : ℕ
  hour : ℕ
  minute : ℕ
  second : ℕ
  microsecond : ℕ
deriving DecidableEq

/-- The oracle modelling `pd.to_datetime(s, errors="coerce")` on one string:
`none` is `NaT` (parse failure). -/
def DateOracle := String → Option PDate

/-- Model of the regex search `\d{1,2}:\d{2}`: some digit, a colon, and two
digits occur consecutively (a two-digit hour match contains a one-digit
match, so plain existence of `digit colon digit digit` is equivalent). -/
def hasTimePat : List Char → Bool
  | a :: t@(b :: c :: d :: _) =>
    (a.isDigit && b == ':' && c.isDigit && d.isDigit) || hasTimePat t
  | _ => false

/-- Format `%Y-%m-%d`. -/
def fmtYMD (d : PDate) : List Char :=
  pad4 d.year ++ '-' :: pad2 d.month ++ '-' :: pad2 d.day

/-- Format `%Y-%m-%d %H:%M:%S`. -/
def fmtHMS (d : PDate) : List Char :=
  fmtYMD d ++ ' ' :: pad2 d.hour ++ ':' :: pad2 d.minute ++ ':' :: pad2 d.second

/-- Format `%Y-%m-%d %H:%M:%S.%f` followed by `.rstrip("0").rstrip(".")`. -/
def fmtMicroStripped (d : PDate) : List Char :=
  rstripCh '.' (rstripCh '0' (fmtHMS d ++ '.' :: pad6 d.microsecond))

/-- The string `detect_and_clean_dates` produces from a successfully parsed
date, depending on whether the original value contained a time pattern and on
sub-second precision (clean.py lines 84-93). -/
def renderDate (d : PDate) (hasTime : Bool) : String :=
  if hasTime then
    if 0 < d.microsecond then String.mk (fmtMicroStripped d)
    else String.mk (fmtHMS d)
  else String.mk (fmtYMD d)

/-- Date keywords of `detect_and_clean_dates` (clean.py lines 56-60). -/
def dateKeywords : List String :=
  ["date", "time", "timestamp", "datetime", "created", "updated", "modified",
   "deleted", "start", "end", "due", "expire", "birth", "dob"]

/-- Column-name test `is_date_column` of `detect_and_clean_dates`
(clean.py lines 63-66). -/
def isDateColumn (column_name : String) : Bool :=
  dateKeywords.any (fun k => containsStr (lowerStr column_name) k) ||
  (["_at", "_on"].any fun suf => endsWithStr (lowerStr column_name) suf)

/-- Embedding of `detect_and_clean_dates(value, column_name)`
(clean.py lines 34-97), parametrised by the `pd.to_datetime` oracle. -/
def detect_and_clean_dates (pd : DateOracle) (v : Value) (column_name : String) : Value :=
  if v.isna || pyStrip (strOfValue v) = "" then v
  else if ["pct", "percent", "rate"].any (fun t => containsStr (lowerStr column_name) t) then v
  else if (match parseFloat (pyStrip (strOfValue v)) with
           | some f => f.strictSmall && (pyStrip (strOfValue v)).data.contains '.'
           | none => false) then v
  else if (pyStrip (strOfValue v)).data.all Char.isDigit
          && (pyStrip (strOfValue v)).data.length == 8
          && !isDateColumn column_name then v
  else
    match pd (pyStrip (strOfValue v)) with
    | none => v
    | some d => .str (renderDate d (hasTimePat (pyStrip (strOfValue v)).data))

/-- Embedding of `clean_currency_and_numbers(value)` (clean.py lines 99-118). -/
def clean_currency_and_numbers (v : Value) : Value :=
  if v.isna then v
  else
    match parseFloat (curCleaned (strOfValue v)) with
    | some _ => .str (curCleaned (strOfValue v))
    | none => v

/-- Embedding of `clean_percentage(value)` (clean.py lines 120-139). -/
def clean_percentage (v : Value) : Value :=
  if v.isna then v
  else if (pyStrip (strOfValue v)).data.contains '%' then
    match parseFloat (pctCleaned (strOfValue v)) with
    | some f => .num f.div100
    | none => .str (pctCleaned (strOfValue v))
  else v

/-- The per-cell whitespace stripping of the pipeline
(`df.map(lambda x: x.strip() if isinstance(x, str) else x)`, clean.py line 347). -/
def stripCell : Value → Value
  | .str s => .str (pyStrip s)
  | v => v

/-- Model of `pd.to_numeric` on one cell: floats (NaN included) pass through,
strings go through the float parser, anything unparseable is a failure. -/
def toNumericCell : Value → Option Flt
  | .num f => some f
  | .str s => parseFloat s

/-- The strict numeric-column gate of the pipeline
(`pd.to_numeric(df[col], errors="raise")` succeeding on every cell,
clean.py lines 356-362). -/
def gateNumeric (cells : List Value) : Bool :=
  cells.all fun v => (toNumericCell v).isSome

/-- A column after whitespace stripping, the currency cleaner and the
percentage cleaner (clean.py lines 347-352). -/
def postPct (cells : List Value) : List Value :=
  ((cells.map stripCell).map clean_currency_and_numbers).map clean_percentage

/-- The full value-cleaning pipeline for one column (clean.py lines 347-366):
strip, currency, percentage, then the date detector on every cell unless the
column is purely numeric. -/
def pipelineColumn (pd : DateOracle) (name : String) (cells : List Value) : List Value :=
  if gateNumeric (postPct cells) then postPct cells
  else (postPct cells).map fun v => detect_and_clean_dates pd v name

/-- Header normalization chain of `clean_column_headers` applied to one name
(clean.py lines 12-32), innermost replacement first, on characters. -/
def headerChain (l : List Char) : List Char :=
  replCh ']' []
    (replCh '[' []
      (replCh '}' []
        (replCh '{' []
          (replCh ')' []
            (replCh '(' []
              (replCh '&' []
                (replCh '^' []
                  (replCh '*' []
                    (replCh '@' []
                      (replCh '/' []
                        (replCh '%' "pct".data
                          (replCh '$' "Dol".data
                            (replCh '#' "Num".data
                              (replCh '-' "_".data
                                (replCh ' ' "_".data l)))))))))))))))

/-- Embedding of `clean_column_headers` on one column name: strip surrounding
whitespace, then the replacement chain. -/
def clean_headers_name (s : String) : String :=
  String.mk (headerChain (stripChars s.data))

/-- A table: ordered named columns, each an ordered list of cells. -/
def Table := List (String × List Value)

instance : DecidableEq Table :=
  inferInstanceAs (DecidableEq (List (String × List Value)))

/-- Header normalization on a whole table (clean.py lines 12-32, 337). -/
def clean_column_headers (t : Table) : Table :=
  t.map fun c => (clean_headers_name c.1, c.2)

/-- The cleaning applied to one file's dataframe by `clean_csv_files`
(clean.py lines 336-366): header normalization, then the per-column value
pipeline, where the date detector receives the already-normalized column
name. -/
def cleanTable (pd : DateOracle) (t : Table) : Table :=
  (clean_column_headers t).map fun c => (c.1, pipelineColumn pd c.1 c.2)

/-- One cell's journey through the pipeline: strip, currency, percentage,
then the date detector when the column-level gate decided to apply it. -/
def cleanCell (pd : DateOracle) (name : String) (applyDates : Bool) (v : Value) : Value :=
  let b := clean_percentage (clean_currency_and_numbers (stripCell v))
  if applyDates then detect_and_clean_dates pd b name else b

/-- Python float addition (NaN propagates, opposite infinities give NaN). -/
def Flt.add : Flt → Flt → Flt
  | .nan, _ => .nan
  | _, .nan => .nan
  | .inf a, .inf b => if a = b then .inf a else .nan
  | .inf a, .fin _ => .inf a
  | .fin _, .inf b => .inf b
  | .fin p, .fin q => .fin (p + q)

/-- Python float negation. -/
def Flt.neg : Flt → Flt
  | .nan => .nan
  | .inf b => .inf (!b)
  | .fin q => .fin (-q)

/-- Python float subtraction. -/
def Flt.sub (x y : Flt) : Flt := x.add y.neg

/-- Python `abs` on a float. -/
def Flt.absF : Flt → Flt
  | .nan => .nan
  | .inf _ => .inf false
  | .fin q => .fin |q|

/-- Python comparison `x > c` for a rational bound `c` (false for NaN). -/
def Flt.bgt : Flt → ℚ → Bool
  | .nan, _ => false
  | .inf b, _ => !b
  | .fin q, c => decide (c < q)

/-- Python float division by a positive natural number. -/
def Flt.divN : Flt → ℕ → Flt
  | .nan, _ => .nan
  | .inf b, _ => .inf b
  | .fin q, n => .fin (q / n)

/-- Pairwise minimum of two non-NaN floats (pandas `Series.min` step). -/
def Flt.minF : Flt → Flt → Flt
  | .nan, y => y
  | x, .nan => x
  | .inf true, _ => .inf true
  | _, .inf true => .inf true
  | .inf false, y => y
  | x, .inf false => x
  | .fin p, .fin q => .fin (min p q)

/-- Pairwise maximum of two non-NaN floats (pandas `Series.max` step). -/
def Flt.maxF : Flt → Flt → Flt
  | .nan, y => y
  | x, .nan => x
  | .inf false, _ => .inf false
  | _, .inf false => .inf false
  | .inf true, y => y
  | x, .inf true => x
  | .fin p, .fin q => .fin (max p q)

/-- Cells whose `pd.to_numeric(..., errors="coerce")` image is not NaN:
these are the values pandas keeps in skipna aggregates. -/
def numValid (v : Value) : Bool :=
  match toNumericCell v with
  | some f => !f.isNan
  | none => false

/-- The non-NaN coerced numeric values of a column, in order. -/
def coercedNums (l : List Value) : List Flt :=
  l.filterMap fun v =>
    match toNumericCell v with
    | some f => if f.isNan then none else some f
    | none => none

/-- Pandas `Series.sum` with skipna (empty sum is `0.0`). -/
def fltSum (l : List Flt) : Flt := l.foldl Flt.add (.fin 0)

/-- Pandas `Series.mean` with skipna (mean of no values is NaN). -/
def fltMean (l : List Flt) : Flt :=
  if l.isEmpty then .nan else (fltSum l).divN l.length

/-- Pandas `Series.min` with skipna (min of no values is NaN). -/
def fltMin : List Flt → Flt
  | [] => .nan
  | x :: t => t.foldl Flt.minF x

/-- Pandas `Series.max` with skipna (max of no values is NaN). -/
def fltMax : List Flt → Flt
  | [] => .nan
  | x :: t => t.foldl Flt.maxF x

/-- A warning the audit writes to the log; each constructor stands for one
`WARNING:` line of `audit_dataframe` (error messages and numbers elided to
the data that identifies the line). -/
inductive Warning where
  | rowCount : ℕ → ℕ → Warning
  | colCount : ℕ → ℕ → Warning
  | nullCount : String → Warning
  | meanChanged : String → Warning
  | minChanged : String → Warning
  | maxChanged : String → Warning
  | sumChanged : String → Warning
  | dateCountChanged : String → Warning
  | minDateChanged : String → Warning
  | maxDateChanged : String → Warning
  | nonNullCount : String → Warning
  | uniqueCount : String → Warning
  | auditError : String → String → Warning
deriving DecidableEq

/-- Oracle modelling `pd.to_datetime(series, errors="coerce")` on one cell;
a NaN cell is always `NaT`. -/
def dateCoerce (pdV : Value → Option PDate) (v : Value) : Option PDate :=
  if v.isna then none else pdV v

/-- Number of cells of a column that coerce to a valid datetime. -/
def dateCount (pdV : Value → Option PDate) (l : List Value) : ℕ :=
  l.countP fun v => (dateCoerce pdV v).isSome

/-- The coerced datetimes of a column, in order. -/
def coercedDates (pdV : Value → Option PDate) (l : List Value) : List PDate :=
  l.filterMap (dateCoerce pdV)

/-- Lexicographic order on parsed datetimes. -/
def PDate.leB (a b : PDate) : Bool :=
  if a.year ≠ b.year then a.year < b.year
  else if a.month ≠ b.month then a.month < b.month
  else if a.day ≠ b.day then a.day < b.day
  else if a.hour ≠ b.hour then a.hour < b.hour
  else if a.minute ≠ b.minute then a.minute < b.minute
  else if a.second ≠ b.second then a.second < b.second
  else a.microsecond ≤ b.microsecond

/-- Minimum of a list of datetimes (pandas `Series.min`; NaT for none). -/
def dateMin : List PDate → Option PDate
  | [] => none
  | x :: t => some (t.foldl (fun a b => if PDate.leB b a then b else a) x)

/-- Maximum of a list of datetimes (pandas `Series.max`; NaT for none). -/
def dateMax : List PDate → Option PDate
  | [] => none
  | x :: t => some (t.foldl (fun a b => if PDate.leB a b then b else a) x)

/-- The `.date()` part of a datetime, compared exactly by the audit. -/
def PDate.ymd (d : PDate) : ℕ × ℕ × ℕ := (d.year, d.month, d.day)

/-- The `.date()` parts of an optional datetime. -/
def ymdOf : Option PDate → Option (ℕ × ℕ × ℕ)
  | none => none
  | some d => some d.ymd

/-- Number of non-missing cells (`Series.notna().sum()`). -/
def notnaCount (l : List Value) : ℕ := l.countP fun v => !v.isna

/-- Number of distinct non-missing cell values (`Series.nunique()`). -/
def nuniqueCount (l : List Value) : ℕ := ((l.filter fun v => !v.isna).dedup).length

/-- Numeric-branch checks of `audit_dataframe` (clean.py lines 184-211):
mean, min, max and sum of the coerced values within tolerance `0.01`. -/
def numericWarnings (ccol : String) (orig clean : List Value) : List Warning :=
  let o := coercedNums orig
  let c := coercedNums clean
  (if ((fltMean o).sub (fltMean c)).absF.bgt (1 / 100) then [.meanChanged ccol] else []) ++
  (if ((fltMin o).sub (fltMin c)).absF.bgt (1 / 100) then [.minChanged ccol] else []) ++
  (if ((fltMax o).sub (fltMax c)).absF.bgt (1 / 100) then [.maxChanged ccol] else []) ++
  (if ((fltSum o).sub (fltSum c)).absF.bgt (1 / 100) then [.sumChanged ccol] else [])

/-- Date-branch checks of `audit_dataframe` (clean.py lines 221-243). -/
def dateWarnings (pdV : Value → Option PDate) (ccol : String)
    (orig clean : List Value) : List Warning :=
  let oc := dateCount pdV orig
  let cc := dateCount pdV clean
  (if oc ≠ cc then [.dateCountChanged ccol] else []) ++
  (if 0 < oc ∧ 0 < cc then
    (if ymdOf (dateMin (coercedDates pdV orig)) ≠ ymdOf (dateMin (coercedDates pdV clean))
     then [.minDateChanged ccol] else []) ++
    (if ymdOf (dateMax (coercedDates pdV orig)) ≠ ymdOf (dateMax (coercedDates pdV clean))
     then [.maxDateChanged ccol] else [])
   else [])

/-- Text-branch checks of `audit_dataframe` (clean.py lines 247-259). -/
def textWarnings (ccol : String) (orig clean : List Value) : List Warning :=
  (if notnaCount orig ≠ notnaCount clean then [.nonNullCount ccol] else []) ++
  (if nuniqueCount orig ≠ nuniqueCount clean then [.uniqueCount ccol] else [])

/-- The three audit column roles. -/
inductive ColClass where
  | numeric : ColClass
  | date : ColClass
  | text : ColClass
deriving DecidableEq

/-- The audit classification of a column, from the original column's values
(clean.py lines 184 and 221): numeric when more than 80 percent of ALL cells
coerce to a non-NaN number, else date when more than 80 percent of ALL cells
coerce to a datetime, else text.  The `>` on fractions is stated integrally:
`count / len > 4/5` iff `5 * count > 4 * len` (also matching the
`0/0 = nan > 0.8 = False` numpy outcome on empty columns). -/
def classify_column (pdV : Value → Option PDate) (orig : List Value) : ColClass :=
  if 5 * (orig.countP numValid) > 4 * orig.length then .numeric
  else if 5 * dateCount pdV orig > 4 * orig.length then .date
  else .text

/-- Body of the per-column audit try-block (clean.py lines 165-259): the
null-count check, then exactly one of the three classification branches. -/
def audit_column (pdV : Value → Option PDate) (ccol : String)
    (orig clean : List Value) : List Warning :=
  (if (orig.countP Value.isna) ≠ (clean.countP Value.isna) then [.nullCount ccol] else []) ++
  (if 5 * (orig.countP numValid) > 4 * orig.length then numericWarnings ccol orig clean
   else if 5 * dateCount pdV orig > 4 * orig.length then dateWarnings pdV ccol orig clean
   else textWarnings ccol orig clean)

/-- A per-column audit step that may raise (`Except.error` models a Python
exception escaping the column body into the outer `except`). -/
def ColCheck := (String × List Value) → (String × List Value) → Except String (List Warning)

/-- The real per-column audit body never raises in this model. -/
def audit_column_check (pdV : Value → Option PDate) : ColCheck :=
  fun o c => .ok (audit_column pdV c.1 o.2 c.2)

/-- The `try/except` wrapper of the per-column loop (clean.py lines 165-263):
an exception becomes a single column-level warning and the loop continues. -/
def runColumn (check : ColCheck) (o c : String × List Value) : List Warning :=
  match check o c with
  | .ok ws => ws
  | .error e => [.auditError c.1 e]

/-- Row count of a dataframe (all columns have the same length). -/
def nRows : Table → ℕ
  | [] => 0
  | c :: _ => c.2.length

/-- The ordered warning list `audit_dataframe` writes to the log
(clean.py lines 146-263): the row-count check, the column-count check, then
the per-column checks over positionally zipped columns. -/
def audit_warnings (check : ColCheck) (torig tclean : Table) : List Warning :=
  (if nRows torig ≠ nRows tclean then [.rowCount (nRows torig) (nRows tclean)] else []) ++
  (if torig.length ≠ tclean.length then [.colCount torig.length tclean.length] else []) ++
  ((torig.zip tclean).map fun p => runColumn check p.1 p.2).flatten

/-- Embedding of `audit_dataframe(df_original, df_cleaned, ...)`
(clean.py lines 146-272), parametrised by the per-column check so that a
check raising an exception can be modelled: the ordered warning list and the
final verdict (`True` iff no warning was recorded). -/
def audit_dataframe (check : ColCheck) (torig tclean : Table) : List Warning × Bool :=
  (audit_warnings check torig tclean, (audit_warnings check torig tclean).isEmpty)

/-- Missing cell in the sense of the specification glossary: the NaN marker
or a whitespace-only (possibly empty) string. -/
def Value.isMissing : Value → Bool
  | .num f => f.isNan
  | .str s => stripChars s.data == []

/-- The percent-marked cells that the percentage cleaner maps to a missing
value: a string containing a percent sign whose form with `%` and `,` and
surrounding whitespace removed is empty or parses as the float NaN. -/
def pctDegenerate : Value → Bool
  | .num _ => false
  | .str s =>
    (pyStrip s).data.contains '%' &&
      (match parseFloat (pctCleaned s) with
       | some f => f.isNan
       | none => pctCleaned s == "")

/-- The spec-side reading of the audit numeric condition in claim C2: the
fraction of NON-MISSING cells that parse as numeric exceeds `0.8`. -/
def specNumericFractionHigh (orig : List Value) : Bool :=
  5 * (orig.countP fun v => !v.isna && numValid v) > 4 * (orig.countP fun v => !v.isna)

/-- Spec stage for header names: replace space and hyphen with underscore
(section 4.1, first substitution stage). -/
def specUnderscore (l : List Char) : List Char :=
  l.map fun c => if c = ' ' ∨ c = '-' then '_' else c

/-- Spec stage for header names: replace `#`, `$`, `%` by their words
(section 4.1, second substitution stage). -/
def specWords (l : List Char) : List Char :=
  (l.map fun c =>
    if c = '#' then "Num".data
    else if c = '$' then "Dol".data
    else if c = '%' then "pct".data
    else [c]).flatten

/-- Spec stage for header names: delete the listed special characters
(section 4.1, deletion stage). -/
def specDelete (l : List Char) : List Char :=
  l.filter fun c => !(['/', '@', '*', '^', '&', '(', ')', '{', '}', '[', ']'].contains c)

/-- The specification's staged description of header normalization: trim,
underscore substitution, word substitution, deletion, in this order. -/
def specNormalizeHeader (s : String) : String :=
  String.mk (specDelete (specWords (specUnderscore (stripChars s.data))))

/-- A string is date-stable for an oracle: the generic date parse either
fails on it or yields a datetime whose rendered form is the string itself
(the formalization of "not an ambiguous date string"). -/
def dateStable (pd : DateOracle) (u : String) : Bool :=
  match pd u with
  | none => true
  | some d => renderDate d (hasTimePat u.data) == u

/-- A cell to which the idempotence claim C9 applies: missing, or a float
whose printed form is date-stable, or a string with no `$` and no `%` whose
trimmed form and currency-cleaned form are both date-stable. -/
def cellCalm (pd : DateOracle) : Value → Bool
  | .num f => f.isNan || dateStable pd (reprFlt f)
  | .str s =>
    !s.data.contains '$' && !s.data.contains '%' &&
      dateStable pd (pyStrip s) && dateStable pd (curCleaned s)

/-- A table to which the idempotence claim C9 applies: every cell is calm
and every normalized column name carries no surrounding whitespace. -/
def tableCalm (pd : DateOracle) (t : Table) : Bool :=
  t.all fun c =>
    pyStrip (clean_headers_name c.1) == clean_headers_name c.1 &&
      c.2.all (cellCalm pd)

/-- The trivial date oracle: nothing parses as a date (used for witnesses
over tables that hold no date strings). -/
def pdNone : DateOracle := fun _ => none

/-- A date oracle recognizing exactly the string `20240115` (used as a
witness for the eight-digit-numeral skip rule). -/
def pdJan15 : DateOracle :=
  fun s => if s = "20240115" then some ⟨2024, 1, 15, 0, 0, 0, 0⟩ else none

/-- The trivial cell-level datetime coercion oracle for audits. -/
def pdVNone : Value → Option PDate := fun _ => none

/-- The sixteen characters the header chain replaces or deletes. -/
def hSpecials : List Char :=
  [' ', '-', '#', '$', '%', '/', '@', '*', '^', '&', '(', ')', '{', '}', '[', ']']

/-! Character-class facts. -/

theorem isDigit_not_ws {c : Char} (h : c.isDigit = true) : isWsChar c = false := by
  simp only [Char.isDigit, Bool.and_eq_true, decide_eq_true_eq] at h
  simp only [isWsChar, Char.isWhitespace, Bool.or_eq_false_iff, decide_eq_false_iff_not]
  refine ⟨⟨⟨?_, ?_⟩, ?_⟩, ?_⟩ <;> rintro rfl <;> exact absurd h (by decide)

theorem isDigit_ne {c : Char} (h : c.isDigit = true) :
    c ≠ '%' ∧ c ≠ '.' ∧ c ≠ '$' ∧ c ≠ ',' ∧ c ≠ '+' ∧ c ≠ '-' ∧ c ≠ 'e' ∧ c ≠ 'E' := by
  simp only [Char.isDigit, Bool.and_eq_true, decide_eq_true_eq] at h
  refine ⟨?_, ?_, ?_, ?_, ?_, ?_, ?_, ?_⟩ <;> rintro rfl <;> exact absurd h (by decide)

/-! Membership and fixpoint facts about `dropWhile`, `takeWhile`, `stripChars`. -/

theorem mem_dropWhile_of_not {p : Char → Bool} {l : List Char} {a : Char}
    (ha : a ∈ l) (hp : p a = false) : a ∈ l.dropWhile p := by
  induction l with
  | nil => cases ha
  | cons x t ih =>
    rw [List.dropWhile_cons]
    rcases List.mem_cons.mp ha with rfl | ht
    · simp [hp]
    · split
      · exact ih ht
      · exact List.mem_cons_of_mem _ ht

theorem mem_of_mem_dropWhile {p : Char → Bool} {l : List Char} {a : Char}
    (ha : a ∈ l.dropWhile p) : a ∈ l := by
  induction l with
  | nil => cases ha
  | cons x t ih =>
    rw [List.dropWhile_cons] at ha
    split at ha
    · exact List.mem_cons_of_mem _ (ih ha)
    · exact ha

theorem mem_of_mem_strip {l : List Char} {a : Char} (ha : a ∈ stripChars l) : a ∈ l := by
  unfold stripChars at ha
  rw [List.mem_reverse] at ha
  have h1 := mem_of_mem_dropWhile ha
  rw [List.mem_reverse] at h1
  exact mem_of_mem_dropWhile h1

theorem mem_strip_of_not_ws {l : List Char} {a : Char}
    (ha : a ∈ l) (hw : isWsChar a = false) : a ∈ stripChars l := by
  unfold stripChars
  rw [List.mem_reverse]
  apply mem_dropWhile_of_not _ hw
  rw [List.mem_reverse]
  exact mem_dropWhile_of_not ha hw

theorem strip_eq_nil_all_ws {l : List Char} (h : stripChars l = []) :
    ∀ a ∈ l, isWsChar a = true := by
  intro a ha
  by_contra hne
  have hw : isWsChar a = false := by
    cases hh : isWsChar a
    · rfl
    · exact absurd hh hne
  have := mem_strip_of_not_ws ha hw
  rw [h] at this
  cases this

theorem strip_ne_nil_of_mem {l : List Char} {a : Char}
    (ha : a ∈ l) (hw : isWsChar a = false) : stripChars l ≠ [] := by
  intro h
  have := strip_eq_nil_all_ws h a ha
  rw [hw] at this
  cases this

theorem strip_of_all_not_ws {l : List Char} (h : ∀ a ∈ l, isWsChar a = false) :
    stripChars l = l := by
  unfold stripChars
  have h1 : l.dropWhile isWsChar = l := by
    cases l with
    | nil => rfl
    | cons x t => rw [List.dropWhile_cons_of_neg]; simp [h x (List.mem_cons_self x t)]
  rw [h1]
  have h2 : l.reverse.dropWhile isWsChar = l.reverse := by
    cases hr : l.reverse with
    | nil => rfl
    | cons x t =>
      rw [List.dropWhile_cons_of_neg]
      have : x ∈ l.reverse := by rw [hr]; exact List.mem_cons_self x t
      rw [List.mem_reverse] at this
      simp [h x this]
  rw [h2, List.reverse_reverse]

theorem dropWhile_idem (p : Char → Bool) (l : List Char) :
    (l.dropWhile p).dropWhile p = l.dropWhile p := by
  induction l with
  | nil => rfl
  | cons x t ih =>
    rw [List.dropWhile_cons]
    split
    · exact ih
    · rw [List.dropWhile_cons_of_neg (by simp_all)]

theorem dropWhile_eq_self_of_cons {p : Char → Bool} {a : Char} {t : List Char}
    (h : (a :: t).dropWhile p = a :: t) : p a = false := by
  by_contra hne
  have hp : p a = true := by
    cases hh : p a
    · exact absurd hh hne
    · rfl
  rw [List.dropWhile_cons_of_pos hp] at h
  have := congrArg List.length h
  have hle := (List.dropWhile_suffix (l := t) p).sublist.length_le
  simp at this
  omega

theorem dropWhile_fixed_of_prefix {p : Char → Bool} {A q : List Char}
    (hA : A.dropWhile p = A) (hq : q <+: A) : q.dropWhile p = q := by
  cases q with
  | nil => rfl
  | cons a t =>
    obtain ⟨rest, hrest⟩ := hq
    have : A.dropWhile p = A := hA
    rw [← hrest] at this
    have hpa : p a = false := by
      rw [List.cons_append] at this
      exact dropWhile_eq_self_of_cons this
    rw [List.dropWhile_cons_of_neg (by simp [hpa])]

/-- Removal of trailing whitespace alone. -/
theorem dropTrailing_idem (l : List Char) :
    ((((l.reverse.dropWhile isWsChar).reverse).reverse.dropWhile isWsChar)).reverse =
      (l.reverse.dropWhile isWsChar).reverse := by
  rw [List.reverse_reverse, dropWhile_idem]

theorem strip_idem (l : List Char) : stripChars (stripChars l) = stripChars l := by
  show stripChars ((((l.dropWhile isWsChar).reverse.dropWhile isWsChar)).reverse) = _
  set A := l.dropWhile isWsChar with hA
  have hAfix : A.dropWhile isWsChar = A := dropWhile_idem _ _
  set B := (A.reverse.dropWhile isWsChar).reverse with hB
  have hpre : B <+: A := by
    rw [hB]
    have hsuf : A.reverse.dropWhile isWsChar <:+ A.reverse := List.dropWhile_suffix _
    have := List.reverse_prefix.mpr hsuf
    rwa [List.reverse_reverse] at this
  have hBfix : B.dropWhile isWsChar = B := dropWhile_fixed_of_prefix hAfix hpre
  show ((B.dropWhile isWsChar).reverse.dropWhile isWsChar).reverse = B
  rw [hBfix, hB, List.reverse_reverse, dropWhile_idem]

/-! Facts about single-character replacement. -/

theorem replCh_nil (c : Char) (w : List Char) : replCh c w [] = [] := rfl

theorem replCh_cons (c : Char) (w : List Char) (a : Char) (l : List Char) :
    replCh c w (a :: l) = (if a = c then w else [a]) ++ replCh c w l := by
  simp [replCh]

theorem replCh_append (c : Char) (w : List Char) (l1 l2 : List Char) :
    replCh c w (l1 ++ l2) = replCh c w l1 ++ replCh c w l2 := by
  simp [replCh]

theorem mem_replCh_of_ne {c : Char} {w l : List Char} {a : Char}
    (ha : a ∈ l) (hne : a ≠ c) : a ∈ replCh c w l := by
  induction l with
  | nil => cases ha
  | cons x t ih =>
    rw [replCh_cons]
    rcases List.mem_cons.mp ha with rfl | ht
    · rw [if_neg hne]; simp
    · exact List.mem_append_right _ (ih ht)

theorem not_mem_replCh {c : Char} {w l : List Char} {a : Char}
    (hw : a ∉ w) (hl : a ∉ l) : a ∉ replCh c w l := by
  induction l with
  | nil => simp [replCh_nil]
  | cons x t ih =>
    rw [replCh_cons]
    intro hmem
    rcases List.mem_append.mp hmem with h1 | h2
    · split at h1
      · exact hw h1
      · simp at h1
        exact hl (h1 ▸ List.mem_cons_self x t)
    · exact ih (fun h => hl (List.mem_cons_of_mem _ h)) h2

theorem not_mem_replCh_self {c : Char} {w l : List Char}
    (hw : c ∉ w) : c ∉ replCh c w l := by
  induction l with
  | nil => simp [replCh_nil]
  | cons x t ih =>
    rw [replCh_cons]
    intro hmem
    rcases List.mem_append.mp hmem with h1 | h2
    · split at h1
      · exact hw h1
      · simp at h1
        simp_all
    · exact ih h2

theorem replCh_of_not_mem {c : Char} {w l : List Char} (hl : c ∉ l) :
    replCh c w l = l := by
  induction l with
  | nil => rfl
  | cons x t ih =>
    rw [replCh_cons]
    have hx : x ≠ c := fun h => hl (h ▸ List.mem_cons_self x t)
    rw [if_neg hx, ih (fun h => hl (List.mem_cons_of_mem _ h))]
    rfl

theorem mem_rstrip_of_ne {c : Char} {l : List Char} {a : Char}
    (ha : a ∈ l) (hne : a ≠ c) : a ∈ rstripCh c l := by
  unfold rstripCh
  rw [List.mem_reverse]
  apply mem_dropWhile_of_not
  · rw [List.mem_reverse]; exact ha
  · simp [hne]

/-! String-level corollaries. -/

theorem pyStrip_data (s : String) : (pyStrip s).data = stripChars s.data := rfl

theorem pyReplace_data (s : String) (c : Char) (w : String) :
    (pyReplace s c w).data = replCh c w.data s.data := rfl

theorem string_mk_data (l : List Char) : (String.mk l).data = l := rfl

theorem pyStrip_idem (s : String) : pyStrip (pyStrip s) = pyStrip s := by
  unfold pyStrip
  rw [show (String.mk (stripChars s.data)).data = stripChars s.data from rfl, strip_idem]

/-! Successful float parses never contain a percent sign, and are never
whitespace-only. -/

theorem pfExp_no_pct {t : List Char} {k : ℤ} (h : pfExp t = some k) : '%' ∉ t := by
  intro hmem
  cases t with
  | nil => cases hmem
  | cons c t2 =>
    simp only [pfExp] at h
    by_cases h1 : c = '+'
    · rw [if_pos h1] at h
      by_cases h2 : t2 ≠ [] ∧ t2.all Char.isDigit
      · rcases List.mem_cons.mp hmem with rfl | ht
        · exact absurd h1 (by decide)
        · exact absurd (List.all_eq_true.mp h2.2 _ ht) (by decide)
      · rw [if_neg h2] at h; cases h
    · rw [if_neg h1] at h
      by_cases h3 : c = '-'
      · rw [if_pos h3] at h
        by_cases h4 : t2 ≠ [] ∧ t2.all Char.isDigit
        · rcases List.mem_cons.mp hmem with rfl | ht
          · exact absurd h3 (by decide)
          · exact absurd (List.all_eq_true.mp h4.2 _ ht) (by decide)
        · rw [if_neg h4] at h; cases h
      · rw [if_neg h3] at h
        by_cases h5 : (c :: t2).all Char.isDigit
        · exact absurd (List.all_eq_true.mp h5 _ hmem) (by decide)
        · rw [if_neg h5] at h; cases h

theorem pfTail_no_pct {r : List Char} {m : ℚ} {neg : Bool} {f : Flt}
    (h : pfTail r m neg = some f) : '%' ∉ r := by
  intro hmem
  cases r with
  | nil => cases hmem
  | cons e t =>
    simp only [pfTail] at h
    by_cases h1 : e = 'e' ∨ e = 'E'
    · rw [if_pos h1] at h
      rcases List.mem_cons.mp hmem with rfl | ht
      · rcases h1 with h1 | h1 <;> exact absurd h1 (by decide)
      · cases hexp : pfExp t with
        | some k => exact pfExp_no_pct hexp ht
        | none => rw [hexp] at h; cases h
    · rw [if_neg h1] at h; cases h

theorem mem_takeWhile_digit {t : List Char} {a : Char}
    (ha : a ∈ t.takeWhile Char.isDigit) : a.isDigit = true :=
  List.mem_takeWhile_imp ha

theorem pfDec_no_pct {t : List Char} {neg : Bool} {f : Flt}
    (h : pfDec t neg = some f) : '%' ∉ t := by
  intro hmem
  simp only [pfDec] at h
  have hsplit : t.takeWhile Char.isDigit ++ t.dropWhile Char.isDigit = t :=
    List.takeWhile_append_dropWhile (p := Char.isDigit) (l := t)
  have hmem2 : '%' ∈ t.takeWhile Char.isDigit ∨ '%' ∈ t.dropWhile Char.isDigit := by
    rw [← hsplit] at hmem
    exact List.mem_append.mp hmem
  rcases hmem2 with hip | hr1
  · exact absurd (mem_takeWhile_digit hip) (by decide)
  · cases hr : t.dropWhile Char.isDigit with
    | nil => rw [hr] at hr1; cases hr1
    | cons c t2 =>
      rw [hr] at hr1
      simp only [hr] at h
      by_cases h1 : c = '.'
      · rw [if_pos h1] at h
        by_cases h2 : t.takeWhile Char.isDigit = [] ∧ t2.takeWhile Char.isDigit = []
        · rw [if_pos h2] at h; cases h
        · rw [if_neg h2] at h
          rcases List.mem_cons.mp hr1 with heq | ht2
          · rw [h1] at heq; exact absurd heq (by decide)
          · have hsplit2 : t2.takeWhile Char.isDigit ++ t2.dropWhile Char.isDigit = t2 :=
              List.takeWhile_append_dropWhile (p := Char.isDigit) (l := t2)
            rw [← hsplit2] at ht2
            rcases List.mem_append.mp ht2 with hfp | hr2
            · exact absurd (mem_takeWhile_digit hfp) (by decide)
            · exact pfTail_no_pct h hr2
      · rw [if_neg h1] at h
        by_cases h3 : t.takeWhile Char.isDigit = []
        · rw [if_pos h3] at h; cases h
        · rw [if_neg h3] at h
          exact pfTail_no_pct h hr1

theorem pfBody_no_pct {t : List Char} {neg : Bool} {f : Flt}
    (h : pfBody t neg = some f) : '%' ∉ t := by
  intro hmem
  simp only [pfBody] at h
  have hmap : Char.toLower '%' ∈ t.map Char.toLower := List.mem_map_of_mem _ hmem
  have hpl : Char.toLower '%' = '%' := by decide
  rw [hpl] at hmap
  by_cases h1 : t.map Char.toLower = "inf".data ∨ t.map Char.toLower = "infinity".data
  · rcases h1 with h1 | h1 <;> rw [h1] at hmap <;> exact absurd hmap (by decide)
  · rw [if_neg h1] at h
    by_cases h2 : t.map Char.toLower = "nan".data
    · rw [h2] at hmap
      exact absurd hmap (by decide)
    · rw [if_neg h2] at h
      exact pfDec_no_pct h hmem

theorem pfCore_no_pct {l : List Char} {f : Flt} (h : pfCore l = some f) : '%' ∉ l := by
  intro hmem
  cases l with
  | nil => cases hmem
  | cons c t =>
    simp only [pfCore] at h
    by_cases h1 : c = '+'
    · rw [if_pos h1] at h
      rcases List.mem_cons.mp hmem with rfl | ht
      · exact absurd h1 (by decide)
      · exact pfBody_no_pct h ht
    · rw [if_neg h1] at h
      by_cases h2 : c = '-'
      · rw [if_pos h2] at h
        rcases List.mem_cons.mp hmem with rfl | ht
        · exact absurd h2 (by decide)
        · exact pfBody_no_pct h ht
      · rw [if_neg h2] at h
        exact pfBody_no_pct h hmem

theorem parseFloat_no_pct {s : String} {f : Flt} (h : parseFloat s = some f) :
    '%' ∉ stripChars s.data :=
  pfCore_no_pct h

theorem parseFloat_strip_ne_nil {s : String} {f : Flt} (h : parseFloat s = some f) :
    stripChars s.data ≠ [] := by
  intro hnil
  unfold parseFloat at h
  rw [hnil] at h
  cases h

/-! The printed form of a float: all characters are digits, a sign, a point,
or letters of `nan`/`inf`; it is nonempty and free of whitespace, `%`, `$`
and `,`; and for non-NaN floats it parses back as a float. -/

theorem digitChar_isDigit {m : ℕ} (h : m < 10) : (Nat.digitChar m).isDigit = true := by
  interval_cases m <;> decide

theorem natDigitsAux_digits {fuel n : ℕ} :
    ∀ c ∈ natDigitsAux fuel n, c.isDigit = true := by
  induction fuel generalizing n with
  | zero => intro c hc; cases hc
  | succ fuel ih =>
    intro c hc
    rw [natDigitsAux] at hc
    split at hc
    · simp at hc
      subst hc
      exact digitChar_isDigit (by omega)
    · rcases List.mem_append.mp hc with h1 | h2
      · exact ih _ h1
      · simp at h2
        subst h2
        exact digitChar_isDigit (Nat.mod_lt _ (by omega))

theorem natDigits_digits {n : ℕ} : ∀ c ∈ natDigits n, c.isDigit = true :=
  natDigitsAux_digits

theorem natDigits_ne_nil (n : ℕ) : natDigits n ≠ [] := by
  unfold natDigits natDigitsAux
  split
  · simp
  · simp

theorem fracDigitsAux_digits {fuel : ℕ} {r : ℚ} :
    ∀ c ∈ fracDigitsAux fuel r, c.isDigit = true := by
  induction fuel generalizing r with
  | zero => intro c hc; cases hc
  | succ fuel ih =>
    intro c hc
    rw [fracDigitsAux] at hc
    split at hc
    · cases hc
    · rcases List.mem_cons.mp hc with rfl | ht
      · exact digitChar_isDigit (Nat.mod_lt _ (by omega))
      · exact ih _ ht

theorem padLeft_digits {w : ℕ} {l : List Char} (hl : ∀ c ∈ l, c.isDigit = true) :
    ∀ c ∈ padLeft w l, c.isDigit = true := by
  intro c hc
  rcases List.mem_append.mp hc with h1 | h2
  · rw [List.eq_of_mem_replicate h1]; decide
  · exact hl c h2

/-- Character classification of `reprFlt`: every character is a digit or one
of the explicitly printed characters. -/
theorem reprFlt_chars (f : Flt) :
    ∀ c ∈ (reprFlt f).data, c.isDigit = true ∨ c ∈ ['-', '.', 'n', 'a', 'i', 'f'] := by
  intro c hc
  cases f with
  | nan => right; simp [reprFlt] at hc; rcases hc with rfl | rfl | rfl <;> decide
  | inf b =>
    right
    cases b <;> simp [reprFlt] at hc <;>
      first
        | (rcases hc with rfl | rfl | rfl <;> decide)
        | (rcases hc with rfl | rfl | rfl | rfl <;> decide)
  | fin q =>
    simp only [reprFlt] at hc
    rcases List.mem_append.mp hc with h1 | h2
    · rcases List.mem_append.mp h1 with hs | hi
      · split at hs
        · simp at hs; right; rw [hs]; decide
        · cases hs
      · left; exact natDigits_digits _ hi
    · rcases List.mem_cons.mp h2 with rfl | hf
      · right; decide
      · split at hf
        · simp at hf; left; rw [hf]; decide
        · left; exact fracDigitsAux_digits _ hf

theorem reprFlt_no_ws {f : Flt} : ∀ c ∈ (reprFlt f).data, isWsChar c = false := by
  intro c hc
  rcases reprFlt_chars f c hc with hd | hs
  · exact isDigit_not_ws hd
  · fin_cases hs <;> decide

theorem reprFlt_no_pct {f : Flt} : '%' ∉ (reprFlt f).data := by
  intro hc
  rcases reprFlt_chars f '%' hc with hd | hs
  · exact absurd hd (by decide)
  · simp at hs

theorem reprFlt_no_dollar {f : Flt} : '$' ∉ (reprFlt f).data := by
  intro hc
  rcases reprFlt_chars f '$' hc with hd | hs
  · exact absurd hd (by decide)
  · simp at hs

theorem reprFlt_no_comma {f : Flt} : ',' ∉ (reprFlt f).data := by
  intro hc
  rcases reprFlt_chars f ',' hc with hd | hs
  · exact absurd hd (by decide)
  · simp at hs

theorem reprFlt_ne_nil (f : Flt) : (reprFlt f).data ≠ [] := by
  cases f with
  | nan => simp [reprFlt]
  | inf b => cases b <;> simp [reprFlt]
  | fin q =>
    simp only [reprFlt]
    intro h
    rcases List.append_eq_nil.mp h with ⟨h1, h2⟩
    rcases List.append_eq_nil.mp h1 with ⟨-, h3⟩
    exact natDigits_ne_nil _ h3

theorem strip_reprFlt (f : Flt) : stripChars (reprFlt f).data = (reprFlt f).data :=
  strip_of_all_not_ws reprFlt_no_ws

theorem pyStrip_reprFlt (f : Flt) : pyStrip (reprFlt f) = reprFlt f := by
  unfold pyStrip
  rw [strip_reprFlt]

theorem takeWhile_append_of_all {p : Char → Bool} {xs ys : List Char} {y : Char}
    (h : ∀ a ∈ xs, p a = true) (hy : p y = false) :
    (xs ++ y :: ys).takeWhile p = xs ∧ (xs ++ y :: ys).dropWhile p = y :: ys := by
  induction xs with
  | nil =>
    constructor
    · rw [List.nil_append, List.takeWhile_cons_of_neg (by simp [hy])]
    · rw [List.nil_append, List.dropWhile_cons_of_neg (by simp [hy])]
  | cons x t ih =>
    have hx : p x = true := h x (List.mem_cons_self x t)
    have iht := ih fun a ha => h a (List.mem_cons_of_mem _ ha)
    constructor
    · rw [List.cons_append, List.takeWhile_cons_of_pos hx, iht.1]
    · rw [List.cons_append, List.dropWhile_cons_of_pos hx, iht.2]

theorem pfBody_of_decimal {ip fp : List Char} {neg : Bool}
    (hip : ∀ a ∈ ip, a.isDigit = true) (hipn : ip ≠ [])
    (hfp : ∀ a ∈ fp, a.isDigit = true) :
    pfBody (ip ++ '.' :: fp) neg = some (.fin (if neg then -(mantVal ip fp) else mantVal ip fp)) := by
  have hdot : '.' ∈ ip ++ '.' :: fp := List.mem_append_right _ (List.mem_cons_self _ _)
  have hdotmap : '.' ∈ (ip ++ '.' :: fp).map Char.toLower := by
    have := List.mem_map_of_mem Char.toLower hdot
    rwa [show Char.toLower '.' = '.' from by decide] at this
  unfold pfBody
  rw [if_neg, if_neg]
  · unfold pfDec
    have hsplit := @takeWhile_append_of_all Char.isDigit ip fp '.' hip (by decide)
    rw [hsplit.1, hsplit.2]
    simp only
    rw [if_pos True.intro, if_neg (by simp [hipn]),
      List.takeWhile_eq_self_iff.mpr hfp, List.dropWhile_eq_nil_iff.mpr hfp]
    unfold pfTail
    rfl
  · intro hcon
    rw [hcon] at hdotmap
    exact absurd hdotmap (by decide)
  · intro hcon
    rcases hcon with hcon | hcon <;> rw [hcon] at hdotmap <;> exact absurd hdotmap (by decide)

theorem parseFloat_reprFlt_fin (q : ℚ) :
    (parseFloat (reprFlt (.fin q))).isSome = true := by
  unfold parseFloat
  rw [strip_reprFlt]
  simp only [reprFlt]
  set ip := natDigits (⌊|q|⌋ : ℤ).toNat with hip
  set fp0 := fracDigitsAux 17 (|q| - (⌊|q|⌋ : ℤ)) with hfp0
  set fp := if fp0.isEmpty then ['0'] else fp0 with hfp
  have hipd : ∀ a ∈ ip, a.isDigit = true := natDigits_digits
  have hipn : ip ≠ [] := natDigits_ne_nil _
  have hfpd : ∀ a ∈ fp, a.isDigit = true := by
    rw [hfp]
    split
    · intro a ha; simp at ha; rw [ha]; decide
    · exact fracDigitsAux_digits
  split
  · show (pfCore ('-' :: (ip ++ '.' :: fp))).isSome = true
    rw [show pfCore ('-' :: (ip ++ '.' :: fp)) =
          (if '-' = '+' then pfBody (ip ++ '.' :: fp) false
           else if '-' = '-' then pfBody (ip ++ '.' :: fp) true
           else pfBody ('-' :: (ip ++ '.' :: fp)) false) from rfl,
      if_neg (by decide), if_pos rfl, pfBody_of_decimal hipd hipn hfpd]
    rfl
  · show (pfCore (([] ++ ip) ++ '.' :: fp)).isSome = true
    rw [List.nil_append]
    cases hc : ip with
    | nil => exact absurd hc hipn
    | cons d t =>
      have hd : d.isDigit = true := hipd d (by rw [hc]; exact List.mem_cons_self d t)
      have hne := isDigit_ne hd
      rw [show pfCore (d :: t ++ '.' :: fp) =
            (if d = '+' then pfBody (t ++ '.' :: fp) false
             else if d = '-' then pfBody (t ++ '.' :: fp) true
             else pfBody (d :: t ++ '.' :: fp) false) from rfl,
        if_neg hne.2.2.2.2.1, if_neg hne.2.2.2.2.2.1]
      have hp := @pfBody_of_decimal ip fp false hipd hipn hfpd
      rw [hc] at hp
      rw [hp]
      rfl

theorem parseFloat_reprFlt_inf (b : Bool) :
    (parseFloat (reprFlt (.inf b))).isSome = true := by
  cases b <;> decide

/-! Behaviour of the cleaners on missing and present values. -/

theorem contains_iff_mem (l : List Char) (a : Char) : l.contains a = true ↔ a ∈ l := by
  simp

theorem contains_eq_false {l : List Char} {a : Char} (h : a ∉ l) :
    l.contains a = false := by
  cases hc : l.contains a
  · rfl
  · exact absurd ((contains_iff_mem l a).mp hc) h

theorem beq_nil_eq_false {l : List Char} (h : l ≠ []) : (l == []) = false := by
  cases hc : l == []
  · rfl
  · exact absurd (by simpa using hc) h

theorem strOfValue_str (s : String) : strOfValue (.str s) = s := rfl

theorem strOfValue_num (f : Flt) : strOfValue (.num f) = reprFlt f := rfl

theorem isna_num (f : Flt) : (Value.num f).isna = f.isNan := by
  cases f <;> rfl

theorem isna_str (s : String) : (Value.str s).isna = false := rfl

theorem div100_isNan (f : Flt) : f.div100.isNan = f.isNan := by
  cases f <;> rfl

theorem isMissing_num (f : Flt) : (Value.num f).isMissing = f.isNan := rfl

theorem isMissing_str (s : String) :
    (Value.str s).isMissing = (stripChars s.data == []) := rfl

theorem stripCell_num (f : Flt) : stripCell (.num f) = .num f := rfl

theorem stripCell_str (s : String) : stripCell (.str s) = .str (pyStrip s) := rfl

theorem parseFloat_some_not_missing {c : String} {f : Flt} (h : parseFloat c = some f) :
    Value.isMissing (.str c) = false := by
  rw [isMissing_str]
  exact beq_nil_eq_false (parseFloat_strip_ne_nil h)

theorem parseFloat_some_no_pct_full {c : String} {f : Flt} (h : parseFloat c = some f) :
    '%' ∉ c.data := by
  intro hmem
  exact parseFloat_no_pct h (mem_strip_of_not_ws hmem (by decide))

theorem strip_of_missing_str {s : String} (h : Value.isMissing (.str s) = true) :
    stripChars s.data = [] := by
  rw [isMissing_str] at h
  simpa using h

theorem parseFloat_of_data_nil {u : String} (h : u.data = []) : parseFloat u = none := by
  unfold parseFloat
  rw [h]
  rfl

theorem isna_of_missing_num {f : Flt} (h : Value.isMissing (.num f) = true) :
    f = .nan := by
  cases f with
  | nan => rfl
  | inf b => simp [Value.isMissing, Flt.isNan] at h
  | fin q => simp [Value.isMissing, Flt.isNan] at h

theorem curCleaned_data (s : String) :
    (curCleaned s).data = stripChars (replCh ',' [] (replCh '$' [] (stripChars s.data))) := by
  unfold curCleaned
  rw [pyStrip_data, pyReplace_data, pyReplace_data, pyStrip_data]

theorem pctCleaned_data (s : String) :
    (pctCleaned s).data = stripChars (replCh ',' [] (replCh '%' [] (stripChars s.data))) := by
  unfold pctCleaned
  rw [pyStrip_data, pyReplace_data, pyReplace_data, pyStrip_data]

theorem curCleaned_strip (s : String) : curCleaned (pyStrip s) = curCleaned s := by
  unfold curCleaned
  rw [pyStrip_idem]

theorem pctCleaned_strip (s : String) : pctCleaned (pyStrip s) = pctCleaned s := by
  unfold pctCleaned
  rw [pyStrip_idem]

theorem clean_currency_missing {v : Value} (h : v.isMissing = true) :
    clean_currency_and_numbers v = v := by
  cases v with
  | num f =>
    rw [isna_of_missing_num h]
    rfl
  | str s =>
    have hstrip := strip_of_missing_str h
    have hnone : parseFloat (curCleaned s) = none := by
      apply parseFloat_of_data_nil
      rw [curCleaned_data, hstrip]
      rfl
    unfold clean_currency_and_numbers
    rw [if_neg (by simp [Value.isna]), strOfValue_str, hnone]

theorem clean_percentage_missing {v : Value} (h : v.isMissing = true) :
    clean_percentage v = v := by
  cases v with
  | num f =>
    rw [isna_of_missing_num h]
    rfl
  | str s =>
    have hstrip := strip_of_missing_str h
    have hcont : '%' ∉ (pyStrip s).data := by
      rw [pyStrip_data, hstrip]
      simp
    unfold clean_percentage
    rw [if_neg (by simp [Value.isna]), strOfValue_str, if_neg (by simp [hcont])]

theorem detect_missing {pd : DateOracle} {n : String} {v : Value} (h : v.isMissing = true) :
    detect_and_clean_dates pd v n = v := by
  cases v with
  | num f =>
    rw [isna_of_missing_num h]
    rfl
  | str s =>
    have hstrip := strip_of_missing_str h
    have hps : pyStrip s = "" := by
      unfold pyStrip
      rw [hstrip]
    unfold detect_and_clean_dates
    rw [if_pos]
    simp [Value.isna, strOfValue, hps]

theorem stripCell_missing {v : Value} (h : v.isMissing = true) :
    (stripCell v).isMissing = true := by
  cases v with
  | num f => exact h
  | str s =>
    rw [stripCell_str, isMissing_str, pyStrip_data, strip_idem]
    rw [isMissing_str] at h
    exact h

theorem cleanCell_missing {pd : DateOracle} {n : String} {b : Bool} {v : Value}
    (h : v.isMissing = true) : (cleanCell pd n b v).isMissing = true := by
  have h1 := stripCell_missing h
  simp only [cleanCell, clean_currency_missing h1, clean_percentage_missing h1]
  cases b with
  | false => simpa using h1
  | true => simpa [detect_missing h1] using h1

/-! Present values stay present, outside the degenerate percent family. -/

theorem renderDate_mem_dash (d : PDate) (ht : Bool) : '-' ∈ (renderDate d ht).data := by
  have hymd : '-' ∈ fmtYMD d := by
    unfold fmtYMD
    exact List.mem_append_right _ (List.mem_cons_self _ _)
  have hhms : '-' ∈ fmtHMS d := by
    unfold fmtHMS
    exact List.mem_append_left _ (List.mem_append_left _ (List.mem_append_left _ hymd))
  unfold renderDate
  split_ifs with h1 h2
  · rw [string_mk_data]
    unfold fmtMicroStripped
    apply mem_rstrip_of_ne _ (by decide)
    apply mem_rstrip_of_ne _ (by decide)
    exact List.mem_append_left _ hhms
  · rw [string_mk_data]
    exact hhms
  · rw [string_mk_data]
    exact hymd

theorem detect_present {pd : DateOracle} {n : String} {v : Value}
    (h : v.isMissing = false) :
    (detect_and_clean_dates pd v n).isMissing = false := by
  unfold detect_and_clean_dates
  split_ifs with h1 h2 h3 h4
  · exact h
  · exact h
  · exact h
  · exact h
  · cases hp : pd (pyStrip (strOfValue v)) with
    | none => simp only [hp]; exact h
    | some d =>
      simp only [hp]
      rw [isMissing_str]
      exact beq_nil_eq_false
        (strip_ne_nil_of_mem (renderDate_mem_dash d _) (by decide))

theorem str_data_ne_nil_of_ne {c : String} (h : c ≠ "") : c.data ≠ [] := by
  intro hd
  apply h
  have hc : c = String.mk c.data := rfl
  rw [hc, hd]

theorem beq_str_empty_false {c : String} (h : (c == "") = false) : c ≠ "" := by
  intro hc
  rw [hc] at h
  simp at h

theorem clean_percentage_of_parsed {c : String} {f : Flt} (hp : parseFloat c = some f) :
    clean_percentage (.str c) = .str c := by
  unfold clean_percentage
  rw [if_neg (by simp [Value.isna]), strOfValue_str, if_neg]
  intro hcon
  have hmem := (contains_iff_mem _ _).mp hcon
  exact parseFloat_some_no_pct_full hp (mem_of_mem_strip hmem)

theorem clean_percentage_no_pct_num {f : Flt} (hna : f.isNan = false) :
    clean_percentage (.num f) = .num f := by
  unfold clean_percentage
  rw [if_neg (by rw [isna_num, hna]; simp), strOfValue_num, if_neg]
  intro hcon
  have hmem := (contains_iff_mem _ _).mp hcon
  exact reprFlt_no_pct (mem_of_mem_strip hmem)

/-- A present cell that is not in the degenerate percent family stays present
through strip, currency and percentage cleaning. -/
theorem postPct_cell_present {v : Value}
    (hpres : v.isMissing = false) (hdeg : pctDegenerate v = false) :
    (clean_percentage (clean_currency_and_numbers (stripCell v))).isMissing = false := by
  cases v with
  | num f =>
    have hf : f.isNan = false := by rwa [isMissing_num] at hpres
    rw [stripCell_num]
    unfold clean_currency_and_numbers
    rw [if_neg (by rw [isna_num, hf]; simp)]
    cases hp : parseFloat (curCleaned (strOfValue (Value.num f))) with
    | some g =>
      simp only [hp]
      rw [clean_percentage_of_parsed hp]
      exact parseFloat_some_not_missing hp
    | none =>
      simp only [hp]
      rw [clean_percentage_no_pct_num hf]
      exact hf
  | str s =>
    rw [stripCell_str]
    have hpres1 : Value.isMissing (.str (pyStrip s)) = false := by
      rw [isMissing_str, pyStrip_data, strip_idem]
      rwa [isMissing_str] at hpres
    unfold clean_currency_and_numbers
    rw [if_neg (by simp [Value.isna]), strOfValue_str, curCleaned_strip]
    cases hp : parseFloat (curCleaned s) with
    | some g =>
      simp only [hp]
      rw [clean_percentage_of_parsed hp]
      exact parseFloat_some_not_missing hp
    | none =>
      simp only [hp]
      unfold clean_percentage
      rw [if_neg (by simp [Value.isna]), strOfValue_str, pyStrip_idem, pctCleaned_strip]
      cases hcont : (pyStrip s).data.contains '%' with
      | false => rw [if_neg (by simp)]; exact hpres1
      | true =>
        rw [if_pos rfl]
        unfold pctDegenerate at hdeg
        simp only [hcont, Bool.true_and] at hdeg
        cases hq : parseFloat (pctCleaned s) with
        | some g =>
          simp only [hq] at hdeg ⊢
          rw [isMissing_num, div100_isNan]
          exact hdeg
        | none =>
          simp only [hq] at hdeg ⊢
          rw [isMissing_str]
          have hid : stripChars (pctCleaned s).data = (pctCleaned s).data := by
            unfold pctCleaned
            rw [pyStrip_data]
            exact strip_idem _
          rw [hid]
          exact beq_nil_eq_false (str_data_ne_nil_of_ne (beq_str_empty_false hdeg))

/-- Full per-cell present-ness: strip, currency, percentage and the optional
date step never turn a non-degenerate present cell missing. -/
theorem cleanCell_present {pd : DateOracle} {n : String} {b : Bool} {v : Value}
    (hpres : v.isMissing = false) (hdeg : pctDegenerate v = false) :
    (cleanCell pd n b v).isMissing = false := by
  have h := postPct_cell_present hpres hdeg
  simp only [cleanCell]
  cases b with
  | false => simpa using h
  | true => simpa using detect_present h

/-! The pipeline on a column is the per-cell map, with the date step gated
by the column-level numeric check. -/

theorem cleanCell_false (pd : DateOracle) (n : String) (v : Value) :
    cleanCell pd n false v = clean_percentage (clean_currency_and_numbers (stripCell v)) := rfl

theorem cleanCell_true (pd : DateOracle) (n : String) (v : Value) :
    cleanCell pd n true v =
      detect_and_clean_dates pd (clean_percentage (clean_currency_and_numbers (stripCell v))) n := rfl

theorem postPct_eq_map (cells : List Value) :
    postPct cells =
      cells.map fun v => clean_percentage (clean_currency_and_numbers (stripCell v)) := by
  unfold postPct
  rw [List.map_map, List.map_map]
  rfl

theorem pipelineColumn_eq_map (pd : DateOracle) (n : String) (cells : List Value) :
    pipelineColumn pd n cells =
      cells.map (cleanCell pd n (!gateNumeric (postPct cells))) := by
  unfold pipelineColumn
  cases hg : gateNumeric (postPct cells) with
  | true =>
    rw [if_pos rfl, postPct_eq_map]
    rfl
  | false =>
    rw [if_neg (by simp : ¬(false = true)), postPct_eq_map, List.map_map]
    rfl

/-! Claim C1. -/

/-- C1, counterexample: the present cell `"%"` (not whitespace-only) is
mapped by the pipeline (strip, currency, percentage, and the date detector,
since the column is not purely numeric) to the empty string, a missing value
under the claim's own definition of missing-ness.  So cleaning can turn a
present cell missing, refuting the claim as stated. -/
theorem C1_counterexample :
    Value.isMissing (.str "%") = false ∧
    pipelineColumn pdNone "c" [.str "%"] = [.str ""] ∧
    Value.isMissing (.str "") = true ∧
    clean_percentage (.str "%") = .str "" := by
  decide

/-- C1, amended: cleaning preserves the missing/present status of every
cell, except that a present string containing `%` whose `%`/`,`-stripped
trimmed form is empty or parses as the float NaN is made missing by the
percentage cleaner.  Concretely: (1) every ValueCleaner returns a missing
input unchanged; (2) the per-cell pipeline (strip, currency, percentage,
optional date detection, as `pipelineColumn` applies it) keeps missing cells
missing; (3) it keeps present cells present whenever the cell is not in the
degenerate percent family; (4) the column pipeline is exactly that per-cell
map, with the date step decided by the column gate. -/
theorem C1_missing_preserved (pd : DateOracle) (name : String) (b : Bool) (v : Value) :
    (v.isMissing = true →
      clean_currency_and_numbers v = v ∧ clean_percentage v = v ∧
        detect_and_clean_dates pd v name = v) ∧
    (v.isMissing = true → (cleanCell pd name b v).isMissing = true) ∧
    (v.isMissing = false → pctDegenerate v = false →
      (cleanCell pd name b v).isMissing = false) ∧
    (∀ cells, pipelineColumn pd name cells =
      cells.map (cleanCell pd name (!gateNumeric (postPct cells)))) := by
  refine ⟨fun h => ⟨clean_currency_missing h, clean_percentage_missing h, detect_missing h⟩,
    fun h => cleanCell_missing h,
    fun h1 h2 => cleanCell_present h1 h2,
    fun cells => pipelineColumn_eq_map pd name cells⟩

/-- C1, witness: the amended theorem applied at concrete cells — a present
text cell stays present, a NaN cell stays missing, and the percentage
cleaner leaves a whitespace-only cell unchanged. -/
theorem C1_witness :
    (cleanCell pdNone "c" true (.str "abc")).isMissing = false ∧
    (cleanCell pdNone "c" true (.num Flt.nan)).isMissing = true ∧
    clean_percentage (.str " ") = .str " " := by
  refine ⟨?_, ?_, ?_⟩
  · exact (C1_missing_preserved pdNone "c" true (.str "abc")).2.2.1 (by decide) (by decide)
  · exact (C1_missing_preserved pdNone "c" true (.num Flt.nan)).2.1 (by decide)
  · exact ((C1_missing_preserved pdNone "c" true (.str " ")).1 (by decide)).2.1

/-! Claim C5. -/

/-- C5: for every non-NaN value, the currency cleaner returns the `$`/`,`
stripped, whitespace-trimmed string whenever that string parses as a float,
and returns the value completely unmodified otherwise; in particular
`"$1,200.50"` becomes `"1200.50"` and `"N/A$"` is unchanged. -/
theorem C5_currency_cleaner :
    (∀ v : Value, v.isna = false →
      ((parseFloat (curCleaned (strOfValue v))).isSome = true →
        clean_currency_and_numbers v = .str (curCleaned (strOfValue v))) ∧
      (parseFloat (curCleaned (strOfValue v)) = none →
        clean_currency_and_numbers v = v)) ∧
    clean_currency_and_numbers (.str "$1,200.50") = .str "1200.50" ∧
    clean_currency_and_numbers (.str "N/A$") = .str "N/A$" := by
  refine ⟨fun v hna => ⟨?_, ?_⟩, by decide, by decide⟩
  · intro hsome
    obtain ⟨f, hf⟩ := Option.isSome_iff_exists.mp hsome
    unfold clean_currency_and_numbers
    rw [if_neg (by simp [hna]), hf]
  · intro hf
    unfold clean_currency_and_numbers
    rw [if_neg (by simp [hna]), hf]

/-- C5, witness: the characterization applied at a parsing and at a
non-parsing concrete value. -/
theorem C5_witness :
    clean_currency_and_numbers (.str " $7 ") = .str "7" ∧
    clean_currency_and_numbers (.str "a,b") = .str "a,b" := by
  constructor
  · exact ((C5_currency_cleaner.1 (.str " $7 ") (by decide)).1 (by decide)).trans (by decide)
  · exact (C5_currency_cleaner.1 (.str "a,b") (by decide)).2 (by decide)

/-! Claim C3. -/

/-- C3, counterexample: on parse failure the percentage cleaner does not
return the string with only `%` removed — commas are removed too (and
whitespace stripped): `"abc,%"` yields `"abc"`, not `"abc,"`. -/
theorem C3_counterexample :
    clean_percentage (.str "abc,%") = .str "abc" ∧
    Value.str "abc" ≠ Value.str "abc," := by
  decide

/-- C3, amended: for every non-NaN value, if its trimmed text contains `%`
the cleaner strips `%`, `,` and whitespace and parses the result as a
float; on success it returns that float divided by 100, on failure it
returns the stripped string (with both `%` and `,` removed); without `%`
the value is returned unchanged.  `"25%"` yields `0.25` and `"abc%"`
yields `"abc"`. -/
theorem C3_percentage_cleaner :
    (∀ v : Value, v.isna = false →
      ((pyStrip (strOfValue v)).data.contains '%' = false → clean_percentage v = v) ∧
      ((pyStrip (strOfValue v)).data.contains '%' = true →
        (∀ f, parseFloat (pctCleaned (strOfValue v)) = some f →
          clean_percentage v = .num f.div100) ∧
        (parseFloat (pctCleaned (strOfValue v)) = none →
          clean_percentage v = .str (pctCleaned (strOfValue v))))) ∧
    clean_percentage (.str "25%") = .num (.fin (25 / 100)) ∧
    clean_percentage (.str "abc%") = .str "abc" := by
  have hchar : ∀ v : Value, v.isna = false →
      ((pyStrip (strOfValue v)).data.contains '%' = false → clean_percentage v = v) ∧
      ((pyStrip (strOfValue v)).data.contains '%' = true →
        (∀ f, parseFloat (pctCleaned (strOfValue v)) = some f →
          clean_percentage v = .num f.div100) ∧
        (parseFloat (pctCleaned (strOfValue v)) = none →
          clean_percentage v = .str (pctCleaned (strOfValue v)))) := by
    refine fun v hna => ⟨?_, fun hc => ⟨?_, ?_⟩⟩
    · intro hc
      unfold clean_percentage
      rw [if_neg (by simp [hna]), if_neg (by rw [hc]; simp)]
    · intro f hf
      unfold clean_percentage
      rw [if_neg (by simp [hna]), if_pos hc, hf]
    · intro hf
      unfold clean_percentage
      rw [if_neg (by simp [hna]), if_pos hc, hf]
  refine ⟨hchar, ?_, by decide⟩
  have hp : parseFloat (pctCleaned (strOfValue (Value.str "25%"))) =
      some (.fin (mantVal ['2', '5'] [])) := rfl
  have hm : mantVal ['2', '5'] [] = 25 := by
    have hd : digitsVal ['2', '5'] = 25 := by decide
    have hd0 : digitsVal ([] : List Char) = 0 := rfl
    unfold mantVal
    rw [hd, hd0]
    norm_num
  have := ((hchar (.str "25%") (by decide)).2 (by decide)).1 _ hp
  rw [this]
  show Value.num (Flt.fin (mantVal ['2', '5'] [] / 100)) = Value.num (.fin (25 / 100))
  rw [hm]

/-- C3, witness: the amended characterization applied at concrete values
for the percent-free and the parse-failure branches. -/
theorem C3_witness :
    clean_percentage (.str "12") = .str "12" ∧
    clean_percentage (.str "x%") = .str "x" := by
  constructor
  · exact (C3_percentage_cleaner.1 (.str "12") (by decide)).1 (by decide)
  · exact (((C3_percentage_cleaner.1 (.str "x%") (by decide)).2 (by decide)).2
      (by decide)).trans (by decide)

/-! Claim C7. -/

theorem replCh_singleton (c0 : Char) (w : List Char) (c : Char) :
    replCh c0 w [c] = if c = c0 then w else [c] := by
  simp [replCh]

theorem headerChain_append (l1 l2 : List Char) :
    headerChain (l1 ++ l2) = headerChain l1 ++ headerChain l2 := by
  unfold headerChain
  simp only [replCh_append]

theorem headerChain_flatten (l : List Char) :
    headerChain l = (l.map fun c => headerChain [c]).flatten := by
  induction l with
  | nil => decide
  | cons c t ih =>
    rw [show (c :: t) = [c] ++ t from rfl, headerChain_append, ih]
    simp only [List.map_cons, List.flatten_cons, List.map_append, List.singleton_append]

theorem specStages_flatten (l : List Char) :
    specDelete (specWords (specUnderscore l)) =
      (l.map fun c => specDelete (specWords (specUnderscore [c]))).flatten := by
  induction l with
  | nil => decide
  | cons c t ih =>
    simp only [specUnderscore, specWords, specDelete, List.map_cons, List.map_nil,
      List.flatten_cons, List.flatten_nil, List.filter_append, List.append_nil] at ih ⊢
    rw [ih]

theorem headerCell_eq_spec (c : Char) :
    headerChain [c] = specDelete (specWords (specUnderscore [c])) := by
  by_cases h1 : c = ' '
  · subst h1; decide
  by_cases h2 : c = '-'
  · subst h2; decide
  by_cases h3 : c = '#'
  · subst h3; decide
  by_cases h4 : c = '$'
  · subst h4; decide
  by_cases h5 : c = '%'
  · subst h5; decide
  by_cases h6 : c = '/'
  · subst h6; decide
  by_cases h7 : c = '@'
  · subst h7; decide
  by_cases h8 : c = '*'
  · subst h8; decide
  by_cases h9 : c = '^'
  · subst h9; decide
  by_cases h10 : c = '&'
  · subst h10; decide
  by_cases h11 : c = '('
  · subst h11; decide
  by_cases h12 : c = ')'
  · subst h12; decide
  by_cases h13 : c = '{'
  · subst h13; decide
  by_cases h14 : c = '}'
  · subst h14; decide
  by_cases h15 : c = '['
  · subst h15; decide
  by_cases h16 : c = ']'
  · subst h16; decide
  have hnotin : (['/', '@', '*', '^', '&', '(', ')', '{', '}', '[', ']'].contains c) = false :=
    contains_eq_false
      (by simp [h6, h7, h8, h9, h10, h11, h12, h13, h14, h15, h16])
  have hL : headerChain [c] = [c] := by
    unfold headerChain
    rw [replCh_singleton, if_neg h1, replCh_singleton, if_neg h2,
      replCh_singleton, if_neg h3, replCh_singleton, if_neg h4,
      replCh_singleton, if_neg h5, replCh_singleton, if_neg h6,
      replCh_singleton, if_neg h7, replCh_singleton, if_neg h8,
      replCh_singleton, if_neg h9, replCh_singleton, if_neg h10,
      replCh_singleton, if_neg h11, replCh_singleton, if_neg h12,
      replCh_singleton, if_neg h13, replCh_singleton, if_neg h14,
      replCh_singleton, if_neg h15, replCh_singleton, if_neg h16]
  have e1 : specUnderscore [c] = [c] := by
    simp only [specUnderscore, List.map_cons, List.map_nil]
    rw [if_neg (not_or.mpr ⟨h1, h2⟩)]
  have e2 : specWords [c] = [c] := by
    simp only [specWords, List.map_cons, List.map_nil, List.flatten_cons,
      List.flatten_nil, List.append_nil]
    rw [if_neg h3, if_neg h4, if_neg h5]
  have e3 : specDelete [c] = [c] := by
    simp only [specDelete, List.filter_cons, List.filter_nil]
    rw [hnotin]
    simp
  rw [hL, e1, e2, e3]

/-- C7, counterexample: `"A (%)"` normalizes to `"A_pct"` (the space is
replaced by an underscore before the percent substitution and the
parenthesis deletion), not to `"A pct"` as the claim states. -/
theorem C7_counterexample :
    clean_headers_name "A (%)" = "A_pct" ∧ "A_pct" ≠ "A pct" := by
  constructor
  · decide
  · decide

/-- C7, amended: header normalization applies, in this fixed order, trim;
space and hyphen to underscore; `#` to `Num`, `$` to `Dol`, `%` to `pct`;
then deletion of `/ @ * ^ & ( ) { } [ ]` — stated as equality with the
stage-by-stage normalization — and `"Revenue (%)"` gives `"Revenue_pct"`,
`"Item/Code#"` gives `"ItemCodeNum"`, and `"A (%)"` gives `"A_pct"`. -/
theorem C7_header_normalization :
    (∀ s, clean_headers_name s = specNormalizeHeader s) ∧
    clean_headers_name "Revenue (%)" = "Revenue_pct" ∧
    clean_headers_name "Item/Code#" = "ItemCodeNum" ∧
    clean_headers_name "A (%)" = "A_pct" := by
  refine ⟨fun s => ?_, by decide, by decide, by decide⟩
  unfold clean_headers_name specNormalizeHeader
  rw [headerChain_flatten, specStages_flatten]
  exact congrArg (fun L => String.mk (List.flatten L))
    (List.map_congr_left fun c _ => headerCell_eq_spec c)

/-! Claim C6. -/

/-- C6: the date detector returns a present value unchanged whenever any
skip rule fires: the column name contains `pct`, `percent` or `rate`
(case-insensitively); or the value parses as a float strictly between `-1`
and `1` and contains a decimal point; or the value is a pure 8-digit numeral
and the column name is not date-like (no date keyword, no `_at`/`_on`
suffix); or the generic date parse fails.  The rules are checked in this
order in `detect_and_clean_dates`; each one returns the value unchanged. -/
theorem C6_date_skip_rules (pd : DateOracle) (name : String) (v : Value)
    (_hpres : v.isMissing = false)
    (hskip :
      (["pct", "percent", "rate"].any fun t => containsStr (lowerStr name) t) = true ∨
      (match parseFloat (pyStrip (strOfValue v)) with
       | some f => f.strictSmall && (pyStrip (strOfValue v)).data.contains '.'
       | none => false) = true ∨
      ((pyStrip (strOfValue v)).data.all Char.isDigit
        && (pyStrip (strOfValue v)).data.length == 8
        && !isDateColumn name) = true ∨
      pd (pyStrip (strOfValue v)) = none) :
    detect_and_clean_dates pd v name = v := by
  unfold detect_and_clean_dates
  split_ifs with h1 h2 h3 h4
  · rfl
  · rfl
  · rfl
  · rfl
  · cases hp : pd (pyStrip (strOfValue v)) with
    | none => simp only [hp]
    | some d =>
      rcases hskip with h | h | h | h
      · exact absurd h h2
      · exact absurd h h3
      · exact absurd h h4
      · rw [hp] at h; cases h

/-- C6, witness: `"20240115"` in column `id` is returned unchanged by the
eight-digit rule even though the oracle would parse it, and `"0.5"` in a
`rate` column is returned unchanged by the column-name rule. -/
theorem C6_witness :
    detect_and_clean_dates pdJan15 (.str "20240115") "id" = .str "20240115" ∧
    detect_and_clean_dates pdNone (.str "0.5") "Growth_rate" = .str "0.5" := by
  constructor
  · exact C6_date_skip_rules pdJan15 "id" (.str "20240115") (by decide)
      (Or.inr (Or.inr (Or.inl (by decide))))
  · exact C6_date_skip_rules pdNone "Growth_rate" (.str "0.5") (by decide)
      (Or.inl (by decide))

/-! Claim C4. -/

/-- C4: after currency and percentage cleaning of a column, if every value
(missing NaN cells included, via `pd.to_numeric`) parses as numeric then the
date detector is not applied — the pipeline output is the post-percentage
column itself; if at least one value fails the strict numeric parse, the
date detector is applied to every cell; and the gate fails exactly when some
post-cleaning cell fails `pd.to_numeric` (which a string missing marker such
as `""` does, while a NaN cell does not). -/
theorem C4_numeric_gate (pd : DateOracle) (name : String) (cells : List Value) :
    (gateNumeric (postPct cells) = true →
      pipelineColumn pd name cells = postPct cells) ∧
    (gateNumeric (postPct cells) = false →
      pipelineColumn pd name cells =
        (postPct cells).map fun v => detect_and_clean_dates pd v name) ∧
    (gateNumeric (postPct cells) = false ↔
      ∃ v ∈ postPct cells, toNumericCell v = none) := by
  refine ⟨?_, ?_, ?_⟩
  · intro hg
    unfold pipelineColumn
    rw [if_pos hg]
  · intro hg
    unfold pipelineColumn
    rw [if_neg (by simp [hg])]
  · unfold gateNumeric
    constructor
    · intro hg
      obtain ⟨v, hv, hnp⟩ := List.all_eq_false.mp hg
      refine ⟨v, hv, ?_⟩
      cases hc : toNumericCell v with
      | none => rfl
      | some f => rw [hc] at hnp; simp at hnp
    · rintro ⟨v, hv, hnone⟩
      cases hall : (postPct cells).all (fun v => (toNumericCell v).isSome) with
      | false => rfl
      | true =>
        have := List.all_eq_true.mp hall v hv
        rw [hnone] at this
        cases this

/-- C4, witness: a column that is purely numeric after cleaning (a numeric
string, a percentage and a NaN) skips date detection; adding a text cell
disables the gate and the detector is applied to every cell. -/
theorem C4_witness :
    pipelineColumn pdNone "c" [.str "1,200", .str "50%", .num Flt.nan] =
      postPct [.str "1,200", .str "50%", .num Flt.nan] ∧
    pipelineColumn pdNone "c" [.str "1", .str "x"] =
      ((postPct [.str "1", .str "x"]).map fun v => detect_and_clean_dates pdNone v "c") := by
  constructor
  · exact (C4_numeric_gate pdNone "c" _).1 (by decide)
  · exact (C4_numeric_gate pdNone "c" _).2.1 (by decide)

/-! Claim C2. -/

/-- C2, counterexample: in the column `[NaN, NaN, "1", "2", "3"]` every
non-missing value parses as numeric (fraction 1 on the claim's reading), yet
the audit classifies it as Text, because the code divides the valid-numeric
count by the TOTAL length including missing cells (3/5 = 0.6, not above
0.8). -/
theorem C2_counterexample :
    specNumericFractionHigh
      [.num Flt.nan, .num Flt.nan, .str "1", .str "2", .str "3"] = true ∧
    classify_column pdVNone
      [.num Flt.nan, .num Flt.nan, .str "1", .str "2", .str "3"] ≠ .numeric ∧
    classify_column pdVNone
      [.num Flt.nan, .num Flt.nan, .str "1", .str "2", .str "3"] = .text := by
  decide

/-- C2, amended: a column is classified Numeric exactly when the number of
its cells coercing to a non-NaN number exceeds 0.8 of the TOTAL cell count
(missing cells included in the denominator); otherwise Date exactly when the
number of cells coercing to a datetime exceeds 0.8 of the total; otherwise
Text — and the classification selects which statistics the audit compares:
null count first, then numeric aggregates, date counts/min/max, or text
counts respectively. -/
theorem C2_audit_classification (pdV : Value → Option PDate) (ccol : String)
    (orig clean : List Value) :
    (classify_column pdV orig = .numeric ↔
      5 * orig.countP numValid > 4 * orig.length) ∧
    (classify_column pdV orig = .date ↔
      ¬(5 * orig.countP numValid > 4 * orig.length) ∧
        5 * dateCount pdV orig > 4 * orig.length) ∧
    (classify_column pdV orig = .text ↔
      ¬(5 * orig.countP numValid > 4 * orig.length) ∧
        ¬(5 * dateCount pdV orig > 4 * orig.length)) ∧
    audit_column pdV ccol orig clean =
      (if orig.countP Value.isna ≠ clean.countP Value.isna
       then [.nullCount ccol] else []) ++
      (match classify_column pdV orig with
       | .numeric => numericWarnings ccol orig clean
       | .date => dateWarnings pdV ccol orig clean
       | .text => textWarnings ccol orig clean) := by
  refine ⟨?_, ?_, ?_, ?_⟩
  · unfold classify_column
    split_ifs with hn hd
    · simp [hn]
    · simp [hn, hd]
    · simp [hn, hd]
  · unfold classify_column
    split_ifs with hn hd
    · simp [hn]
    · simp [hn, hd]
    · simp [hn, hd]
  · unfold classify_column
    split_ifs with hn hd
    · simp [hn]
    · simp [hn, hd]
    · simp [hn, hd]
  · unfold audit_column classify_column
    split_ifs <;> rfl

/-! Claim C8. -/

/-- C8: when the per-column audit body raises on some positionally paired
column, `audit_dataframe` records exactly one column-level error warning for
it, the overall verdict is fail, and the per-column checks of every other
pair (before and after the failing one) still contribute their own warnings
in order — the exception never aborts the audit. -/
theorem C8_audit_error_isolated (check : ColCheck) (torig tclean : Table)
    (pre post : List ((String × List Value) × (String × List Value)))
    (oc cc : String × List Value) (e : String)
    (hzip : torig.zip tclean = pre ++ (oc, cc) :: post)
    (herr : check oc cc = .error e) :
    (audit_dataframe check torig tclean).2 = false ∧
    (audit_dataframe check torig tclean).1 =
      (if nRows torig ≠ nRows tclean
       then [.rowCount (nRows torig) (nRows tclean)] else []) ++
      (if torig.length ≠ tclean.length
       then [.colCount torig.length tclean.length] else []) ++
      ((pre.map fun p => runColumn check p.1 p.2).flatten ++
        ([.auditError cc.1 e] ++
          (post.map fun p => runColumn check p.1 p.2).flatten)) := by
  have hmid : runColumn check oc cc = [.auditError cc.1 e] := by
    unfold runColumn
    rw [herr]
  have hws : audit_warnings check torig tclean =
      (if nRows torig ≠ nRows tclean
       then [.rowCount (nRows torig) (nRows tclean)] else []) ++
      (if torig.length ≠ tclean.length
       then [.colCount torig.length tclean.length] else []) ++
      ((pre.map fun p => runColumn check p.1 p.2).flatten ++
        ([.auditError cc.1 e] ++
          (post.map fun p => runColumn check p.1 p.2).flatten)) := by
    unfold audit_warnings
    rw [hzip]
    rw [List.map_append, List.flatten_append, List.map_cons, List.flatten_cons, hmid]
  refine ⟨?_, hws⟩
  show (audit_warnings check torig tclean).isEmpty = false
  rw [hws]
  simp

/-- C8, witness: a check that raises on the only column pair yields a failed
verdict with exactly the column error warning. -/
theorem C8_witness :
    (audit_dataframe (fun _ _ => Except.error "boom")
      [("a", [Value.str "x"])] [("a", [Value.str "x"])]).2 = false ∧
    (audit_dataframe (fun _ _ => Except.error "boom")
      [("a", [Value.str "x"])] [("a", [Value.str "x"])]).1 =
      [.auditError "a" "boom"] := by
  have h := C8_audit_error_isolated (fun _ _ => Except.error "boom")
    [("a", [Value.str "x"])] [("a", [Value.str "x"])]
    [] [] ("a", [Value.str "x"]) ("a", [Value.str "x"]) "boom" (by decide) rfl
  exact ⟨h.1, h.2.trans (by decide)⟩

/-! Claim C10. -/

theorem runColumn_real (pdV : Value → Option PDate)
    (o c : String × List Value) :
    runColumn (audit_column_check pdV) o c = audit_column pdV c.1 o.2 c.2 := rfl

/-- C10: when the column counts differ, the audit records the column-count
warning and then audits only the positionally zipped pairs — exactly
`min` of the two column counts of them; every column beyond that prefix
contributes no per-column check and no further warning (the warning list is
exhausted by the header checks and the zipped prefix). -/
theorem C10_column_prefix (pdV : Value → Option PDate) (torig tclean : Table)
    (hne : torig.length ≠ tclean.length) :
    Warning.colCount torig.length tclean.length ∈
      (audit_dataframe (audit_column_check pdV) torig tclean).1 ∧
    (audit_dataframe (audit_column_check pdV) torig tclean).1 =
      (if nRows torig ≠ nRows tclean
       then [.rowCount (nRows torig) (nRows tclean)] else []) ++
      [.colCount torig.length tclean.length] ++
      ((torig.zip tclean).map fun p => audit_column pdV p.2.1 p.1.2 p.2.2).flatten ∧
    (torig.zip tclean).length = min torig.length tclean.length := by
  have hws : (audit_dataframe (audit_column_check pdV) torig tclean).1 =
      (if nRows torig ≠ nRows tclean
       then [.rowCount (nRows torig) (nRows tclean)] else []) ++
      [.colCount torig.length tclean.length] ++
      ((torig.zip tclean).map fun p => audit_column pdV p.2.1 p.1.2 p.2.2).flatten := by
    show audit_warnings (audit_column_check pdV) torig tclean = _
    unfold audit_warnings
    rw [if_pos hne]
    simp only [runColumn_real]
  refine ⟨?_, hws, List.length_zip torig tclean⟩
  rw [hws]
  exact List.mem_append_left _ (List.mem_append_right _ (List.mem_cons_self _ _))

/-- C10, witness: a two-column original against a one-column cleaned table —
the mismatch warning is recorded and only the single zipped pair is
audited. -/
theorem C10_witness :
    Warning.colCount 2 1 ∈
      (audit_dataframe (audit_column_check pdVNone)
        [("a", [Value.str "x"]), ("b", [Value.str "y"])] [("a", [Value.str "x"])]).1 ∧
    ([("a", [Value.str "x"]), ("b", [Value.str "y"])].zip
      [("a", [Value.str "x"])]).length = min 2 1 := by
  have h := C10_column_prefix pdVNone
    [("a", [Value.str "x"]), ("b", [Value.str "y"])] [("a", [Value.str "x"])] (by decide)
  exact ⟨h.1, h.2.2⟩

/-! Claim C9: idempotence of the full pipeline. -/

theorem not_mem_of_contains_false {l : List Char} {a : Char}
    (h : l.contains a = false) : a ∉ l := by
  intro hm
  rw [(contains_iff_mem l a).mpr hm] at h
  exact Bool.noConfusion h

theorem pyStrip_of_data_fixed {u : String} (h : stripChars u.data = u.data) :
    pyStrip u = u := by
  unfold pyStrip
  rw [h]

theorem pyReplace_of_not_mem {u : String} {c : Char} {w : String} (h : c ∉ u.data) :
    pyReplace u c w = u := by
  unfold pyReplace
  rw [replCh_of_not_mem h]

theorem pyStrip_no_pct {s : String} (h : '%' ∉ s.data) : '%' ∉ (pyStrip s).data := by
  rw [pyStrip_data]
  exact fun hx => h (mem_of_mem_strip hx)

theorem curCleaned_of_clean {u : String} (hs : stripChars u.data = u.data)
    (hd : '$' ∉ u.data) (hc : ',' ∉ u.data) : curCleaned u = u := by
  unfold curCleaned
  rw [pyStrip_of_data_fixed hs, pyReplace_of_not_mem hd, pyReplace_of_not_mem hc,
    pyStrip_of_data_fixed hs]

theorem curCleaned_reprFlt (f : Flt) : curCleaned (reprFlt f) = reprFlt f :=
  curCleaned_of_clean (strip_reprFlt f) reprFlt_no_dollar reprFlt_no_comma

theorem curCleaned_no_dollar (s : String) : '$' ∉ (curCleaned s).data := by
  rw [curCleaned_data]
  exact fun hm =>
    not_mem_replCh (by simp) (not_mem_replCh_self (by simp)) (mem_of_mem_strip hm)

theorem curCleaned_no_comma (s : String) : ',' ∉ (curCleaned s).data := by
  rw [curCleaned_data]
  exact fun hm => not_mem_replCh_self (by simp) (mem_of_mem_strip hm)

theorem curCleaned_no_pct {s : String} (h : '%' ∉ s.data) : '%' ∉ (curCleaned s).data := by
  rw [curCleaned_data]
  exact fun hm =>
    not_mem_replCh (by simp)
      (not_mem_replCh (by simp) (fun hx => h (mem_of_mem_strip hx)))
      (mem_of_mem_strip hm)

theorem curCleaned_strip_fixed (s : String) :
    stripChars (curCleaned s).data = (curCleaned s).data := by
  rw [curCleaned_data]
  exact strip_idem _

theorem clean_percentage_str_no_pct {u : String} (h : '%' ∉ (pyStrip u).data) :
    clean_percentage (.str u) = .str u := by
  unfold clean_percentage
  rw [if_neg (by simp [Value.isna]), strOfValue_str, if_neg (by simp [h])]

/-- Shape of a cell after strip, currency and percentage cleaning, when the
input cell is calm: either the missing marker, or a strip-fixed,
percent-free, date-stable string that the currency stage leaves alone. -/
theorem postCell_calm {pd : DateOracle} {v : Value} (h : cellCalm pd v = true) :
    clean_percentage (clean_currency_and_numbers (stripCell v)) = .num Flt.nan ∨
    ∃ u, clean_percentage (clean_currency_and_numbers (stripCell v)) = .str u ∧
      pyStrip u = u ∧ '%' ∉ u.data ∧ dateStable pd u = true ∧
      (parseFloat (curCleaned u) = none ∨ curCleaned u = u) := by
  cases v with
  | num f =>
    cases hn : f.isNan with
    | true =>
      left
      have hf : f = Flt.nan := by
        cases f with
        | nan => rfl
        | inf b => simp [Flt.isNan] at hn
        | fin q => simp [Flt.isNan] at hn
      subst hf
      decide
    | false =>
      right
      have hds : dateStable pd (reprFlt f) = true := by
        simp only [cellCalm, hn, Bool.false_or] at h
        exact h
      have hps : (parseFloat (reprFlt f)).isSome = true := by
        cases f with
        | nan => simp [Flt.isNan] at hn
        | inf b => exact parseFloat_reprFlt_inf b
        | fin q => exact parseFloat_reprFlt_fin q
      obtain ⟨g, hg⟩ := Option.isSome_iff_exists.mp hps
      have hcc : clean_currency_and_numbers (.num f) = .str (reprFlt f) := by
        unfold clean_currency_and_numbers
        rw [if_neg (by rw [isna_num, hn]; simp), strOfValue_num, curCleaned_reprFlt, hg]
      refine ⟨reprFlt f, ?_, pyStrip_reprFlt f, reprFlt_no_pct, hds,
        Or.inr (curCleaned_reprFlt f)⟩
      rw [stripCell_num, hcc]
      exact clean_percentage_str_no_pct (by rw [pyStrip_reprFlt]; exact reprFlt_no_pct)
  | str s =>
    simp only [cellCalm, Bool.and_eq_true, Bool.not_eq_true'] at h
    obtain ⟨⟨⟨_hd, hp⟩, hds1⟩, hds2⟩ := h
    have hp' : '%' ∉ s.data := not_mem_of_contains_false hp
    right
    cases hq : parseFloat (curCleaned s) with
    | none =>
      have hcc : clean_currency_and_numbers (.str (pyStrip s)) = .str (pyStrip s) := by
        unfold clean_currency_and_numbers
        rw [if_neg (by simp [Value.isna]), strOfValue_str, curCleaned_strip, hq]
      refine ⟨pyStrip s, ?_, pyStrip_idem s, pyStrip_no_pct hp', hds1, Or.inl ?_⟩
      · rw [stripCell_str, hcc]
        exact clean_percentage_str_no_pct (by rw [pyStrip_idem]; exact pyStrip_no_pct hp')
      · rw [curCleaned_strip]
        exact hq
    | some g =>
      have hcc : clean_currency_and_numbers (.str (pyStrip s)) = .str (curCleaned s) := by
        unfold clean_currency_and_numbers
        rw [if_neg (by simp [Value.isna]), strOfValue_str, curCleaned_strip, hq]
      refine ⟨curCleaned s, ?_, pyStrip_of_data_fixed (curCleaned_strip_fixed s),
        curCleaned_no_pct hp', hds2,
        Or.inr (curCleaned_of_clean (curCleaned_strip_fixed s) (curCleaned_no_dollar s)
          (curCleaned_no_comma s))⟩
      rw [stripCell_str, hcc]
      exact clean_percentage_str_no_pct
        (by rw [pyStrip_of_data_fixed (curCleaned_strip_fixed s)]
            exact curCleaned_no_pct hp')

/-- A strip-fixed, percent-free string that the currency stage either fails
on or leaves alone is a fixpoint of strip, currency and percentage
cleaning. -/
theorem postCell_fix {u : String} (hstrip : pyStrip u = u) (hp : '%' ∉ u.data)
    (hc : parseFloat (curCleaned u) = none ∨ curCleaned u = u) :
    clean_percentage (clean_currency_and_numbers (stripCell (.str u))) = .str u := by
  rw [stripCell_str, hstrip]
  unfold clean_currency_and_numbers
  rw [if_neg (by simp [Value.isna]), strOfValue_str]
  cases hq : parseFloat (curCleaned u) with
  | none =>
    simp only [hq]
    exact clean_percentage_str_no_pct (by rw [hstrip]; exact hp)
  | some g =>
    simp only [hq]
    rcases hc with hc | hc
    · rw [hq] at hc
      exact Option.noConfusion hc
    · rw [hc]
      exact clean_percentage_str_no_pct (by rw [hstrip]; exact hp)

theorem postCell_idem {pd : DateOracle} {v : Value} (h : cellCalm pd v = true) :
    clean_percentage (clean_currency_and_numbers (stripCell
      (clean_percentage (clean_currency_and_numbers (stripCell v))))) =
    clean_percentage (clean_currency_and_numbers (stripCell v)) := by
  rcases postCell_calm h with hnan | ⟨u, hu, hstrip, hp, _hds, hcur⟩
  · rw [hnan]
    decide
  · rw [hu]
    exact postCell_fix hstrip hp hcur

/-- The date detector leaves a strip-fixed, date-stable string unchanged,
whatever the column name. -/
theorem detect_id_of_stable {pd : DateOracle} {n : String} {u : String}
    (hstrip : pyStrip u = u) (hds : dateStable pd u = true) :
    detect_and_clean_dates pd (.str u) n = .str u := by
  unfold detect_and_clean_dates
  rw [strOfValue_str, hstrip]
  split_ifs with h1 h2 h3 h4
  · rfl
  · rfl
  · rfl
  · rfl
  · unfold dateStable at hds
    cases hpu : pd u with
    | none => simp only [hpu]
    | some d =>
      rw [hpu] at hds
      simp only [hpu]
      have hr : renderDate d (hasTimePat u.data) = u := by simpa using hds
      rw [hr]

theorem detect_postCell_id {pd : DateOracle} {n : String} {v : Value}
    (h : cellCalm pd v = true) :
    detect_and_clean_dates pd (clean_percentage (clean_currency_and_numbers (stripCell v))) n =
    clean_percentage (clean_currency_and_numbers (stripCell v)) := by
  rcases postCell_calm h with hnan | ⟨u, hu, hstrip, _hp, hds, _hcur⟩
  · rw [hnan]
    exact detect_missing rfl
  · rw [hu]
    exact detect_id_of_stable hstrip hds

theorem map_detect_id {pd : DateOracle} {n : String} {cells : List Value}
    (h : cells.all (cellCalm pd) = true) :
    (postPct cells).map (fun v => detect_and_clean_dates pd v n) = postPct cells := by
  have hpt : ∀ v ∈ postPct cells, detect_and_clean_dates pd v n = v := by
    intro v hv
    rw [postPct_eq_map] at hv
    obtain ⟨w, hw, rfl⟩ := List.mem_map.mp hv
    exact detect_postCell_id (by rw [List.all_eq_true] at h; exact h w hw)
  calc (postPct cells).map (fun v => detect_and_clean_dates pd v n)
      = (postPct cells).map id := List.map_congr_left hpt
    _ = postPct cells := List.map_id _

theorem postPct_calm_fix {pd : DateOracle} {cells : List Value}
    (h : cells.all (cellCalm pd) = true) :
    postPct (postPct cells) = postPct cells := by
  have hpt : ∀ v ∈ postPct cells,
      clean_percentage (clean_currency_and_numbers (stripCell v)) = v := by
    intro v hv
    rw [postPct_eq_map] at hv
    obtain ⟨w, hw, rfl⟩ := List.mem_map.mp hv
    exact postCell_idem (by rw [List.all_eq_true] at h; exact h w hw)
  rw [postPct_eq_map (postPct cells)]
  calc (postPct cells).map (fun v => clean_percentage (clean_currency_and_numbers (stripCell v)))
      = (postPct cells).map id := List.map_congr_left hpt
    _ = postPct cells := List.map_id _

theorem pipelineColumn_calm {pd : DateOracle} {n : String} {cells : List Value}
    (h : cells.all (cellCalm pd) = true) :
    pipelineColumn pd n cells = postPct cells := by
  unfold pipelineColumn
  split_ifs with hg
  · rfl
  · exact map_detect_id h

theorem pipelineColumn_idem {pd : DateOracle} {n m : String} {cells : List Value}
    (h : cells.all (cellCalm pd) = true) :
    pipelineColumn pd m (pipelineColumn pd n cells) = pipelineColumn pd n cells := by
  rw [pipelineColumn_calm h]
  unfold pipelineColumn
  rw [postPct_calm_fix h]
  split_ifs with hg
  · rfl
  · exact map_detect_id h

/-! Header idempotence. -/

theorem headerChain_singleton_id {c : Char} (h : c ∉ hSpecials) : headerChain [c] = [c] := by
  simp only [hSpecials, List.mem_cons, List.not_mem_nil, or_false, not_or] at h
  obtain ⟨h1, h2, h3, h4, h5, h6, h7, h8, h9, h10, h11, h12, h13, h14, h15, h16⟩ := h
  unfold headerChain
  rw [replCh_singleton, if_neg h1, replCh_singleton, if_neg h2,
    replCh_singleton, if_neg h3, replCh_singleton, if_neg h4,
    replCh_singleton, if_neg h5, replCh_singleton, if_neg h6,
    replCh_singleton, if_neg h7, replCh_singleton, if_neg h8,
    replCh_singleton, if_neg h9, replCh_singleton, if_neg h10,
    replCh_singleton, if_neg h11, replCh_singleton, if_neg h12,
    replCh_singleton, if_neg h13, replCh_singleton, if_neg h14,
    replCh_singleton, if_neg h15, replCh_singleton, if_neg h16]

theorem headerChain_special_chars :
    ∀ a ∈ hSpecials, ∀ c ∈ headerChain [a], c ∉ hSpecials := by decide

theorem headerChain_no_special {c : Char} {l : List Char} (hc : c ∈ headerChain l) :
    c ∉ hSpecials := by
  rw [headerChain_flatten] at hc
  obtain ⟨x, hx, hcx⟩ := List.mem_flatten.mp hc
  obtain ⟨a, ha, rfl⟩ := List.mem_map.mp hx
  by_cases hs : a ∈ hSpecials
  · exact headerChain_special_chars a hs c hcx
  · rw [headerChain_singleton_id hs, List.mem_singleton] at hcx
    subst hcx
    exact hs

theorem flatten_map_singleton (l : List Char) : (l.map fun c => [c]).flatten = l := by
  induction l with
  | nil => rfl
  | cons a t ih => simp only [List.map_cons, List.flatten_cons, List.singleton_append, ih]

theorem headerChain_id_of_clean {l : List Char} (h : ∀ c ∈ l, c ∉ hSpecials) :
    headerChain l = l := by
  rw [headerChain_flatten]
  have he : l.map (fun c => headerChain [c]) = l.map (fun c => [c]) :=
    List.map_congr_left fun c hc => headerChain_singleton_id (h c hc)
  rw [he, flatten_map_singleton]

theorem headerChain_idem (l : List Char) : headerChain (headerChain l) = headerChain l :=
  headerChain_id_of_clean fun _ hc => headerChain_no_special hc

theorem clean_headers_idem {s : String}
    (h : pyStrip (clean_headers_name s) = clean_headers_name s) :
    clean_headers_name (clean_headers_name s) = clean_headers_name s := by
  have hdata : stripChars (clean_headers_name s).data = (clean_headers_name s).data := by
    have hd := congrArg String.data h
    rwa [pyStrip_data] at hd
  unfold clean_headers_name at hdata ⊢
  rw [string_mk_data] at hdata
  rw [string_mk_data, hdata, headerChain_idem]

theorem cleanTable_eq_map (pd : DateOracle) (t : Table) :
    cleanTable pd t = t.map fun c =>
      (clean_headers_name c.1, pipelineColumn pd (clean_headers_name c.1) c.2) := by
  unfold cleanTable clean_column_headers
  rw [List.map_map]
  rfl

/-- C9, counterexample: the pipeline is not idempotent on every
currency-free, percent-free, date-free table — the header normalization can
expose new surrounding whitespace: cleaning the one-column table named
`"a\t("` once gives the header `"a\t"` (the parenthesis is deleted), and
cleaning again gives `"a"` (the now-trailing tab is stripped). -/
theorem C9_counterexample :
    (cleanTable pdNone (cleanTable pdNone [("a\t(", [])]) :
        List (String × List Value)) ≠
      cleanTable pdNone [("a\t(", [])] := by
  decide

/-- C9, amended: the pipeline is idempotent on every calm table — every
cell free of `$` and `%` and date-stable both as trimmed and as
currency-cleaned text (missing cells allowed), and every once-normalized
column name free of surrounding whitespace: cleaning the cleaned table
reproduces it cell for cell. -/
theorem C9_idempotent (pd : DateOracle) (t : Table) (h : tableCalm pd t = true) :
    cleanTable pd (cleanTable pd t) = cleanTable pd t := by
  rw [cleanTable_eq_map pd t, cleanTable_eq_map, List.map_map]
  apply List.map_congr_left
  intro c hc
  have hcol : (pyStrip (clean_headers_name c.1) == clean_headers_name c.1 &&
      c.2.all (cellCalm pd)) = true := by
    unfold tableCalm at h
    rw [List.all_eq_true] at h
    exact h c hc
  rw [Bool.and_eq_true] at hcol
  have hname : pyStrip (clean_headers_name c.1) = clean_headers_name c.1 :=
    eq_of_beq hcol.1
  have hcells : c.2.all (cellCalm pd) = true := hcol.2
  simp only [Function.comp_apply]
  rw [clean_headers_idem hname, pipelineColumn_idem hcells]

/-- C9, witness: the idempotence theorem applied to a concrete calm table
holding a padded numeric string, a plain word and a missing cell. -/
theorem C9_witness :
    tableCalm pdNone [("Qty ", [Value.str " 10 ", Value.str "ok", Value.num Flt.nan])] = true ∧
    cleanTable pdNone (cleanTable pdNone
        [("Qty ", [Value.str " 10 ", Value.str "ok", Value.num Flt.nan])]) =
      cleanTable pdNone [("Qty ", [Value.str " 10 ", Value.str "ok", Value.num Flt.nan])] :=
  ⟨by decide, C9_idempotent pdNone
    [("Qty ", [Value.str " 10 ", Value.str "ok", Value.num Flt.nan])] (by decide)⟩

end CleanPy
